import Mathlib

/-!
Verification of the standup/mise MCP adapter services.

This file gives a shallow embedding, in Lean 4, of the activity
aggregation and report-formatting pipeline of the repository
(`src/standup/src/standup_server/{github,formatting,utils}.py`,
`src/standup/src/mcp_server_standup/{github,server}.py`,
`src/mise/src/mcp_server_mise/server.py`) and proves or refutes the
frozen specification claims about it.

Conventions of the embedding:
* Untyped Python JSON-like values (`payload`, `processed_info`,
  `summary` dictionaries) are modelled by the inductive type `JVal`;
  Python dictionaries become association lists with first-key-wins
  lookup, which matches unique-key Python dicts in insertion order.
* Python string comparison is modelled by an explicit lexicographic
  comparison on the character lists (`strLt`, `strLe`), matching
  Python's code-point comparison.
* `datetime` values are modelled by `PyDateTime`, a count of days since
  1970-01-01 (a Thursday) plus seconds within the day; `datetime.now()`
  becomes an explicit `now` argument (the frozen current instant).
* Functions that mutate `self._seen_commits` thread the seen set as an
  explicit `List String` argument and result.
* Where Python would raise `TypeError`/`KeyError` on malformed dynamic
  data (for example a non-list under the `"commits"` key), the
  embedding totalises with the natural default (empty list / empty
  string); all claims concern well-formed data where the two agree.
-/

/-- Untyped JSON-like value, used for event payloads, processed info and
summary dictionaries. -/
inductive JVal where
  | null
  | bool (b : Bool)
  | num (n : Int)
  | str (s : String)
  | arr (xs : List JVal)
  | obj (fs : List (String × JVal))

namespace JVal

/-- Lookup of a key in a Python-dict association list; `d.get(k, default)`. -/
def dget (d : List (String × JVal)) (k : String) (dflt : JVal) : JVal :=
  match d with
  | [] => dflt
  | (k', v) :: rest => if k' = k then v else dget rest k dflt

/-- Lookup of a key in a Python-dict association list; `d.get(k)` / `k in d`. -/
def dgetOpt (d : List (String × JVal)) (k : String) : Option JVal :=
  match d with
  | [] => none
  | (k', v) :: rest => if k' = k then some v else dgetOpt rest k

/-- Python `dict.update(other)`: existing keys are overwritten in place,
new keys are appended in the order of `other`. -/
def dictUpdate (d other : List (String × JVal)) : List (String × JVal) :=
  (d.map fun kv => (kv.1, (dgetOpt other kv.1).getD kv.2)) ++
    other.filter fun kv => (dgetOpt d kv.1).isNone

/-- Coercion of a `JVal` to a list, as used after `payload.get("commits", [])`. -/
def asArr : JVal → List JVal
  | arr xs => xs
  | _ => []

/-- Coercion of a `JVal` to a dict, as used after `payload.get("issue", {})`. -/
def asObj : JVal → List (String × JVal)
  | obj fs => fs
  | _ => []

/-- Coercion of a `JVal` to a string (Python code that calls string methods
on a fetched value). -/
def asStr : JVal → String
  | str s => s
  | _ => ""

/-- Python truthiness of a `JVal`. -/
def pyTruthy : JVal → Bool
  | null => false
  | bool b => b
  | num n => n != 0
  | str s => s ≠ ""
  | arr xs => !xs.isEmpty
  | obj fs => !fs.isEmpty

end JVal

/-- Fuel-driven digit accumulator: structural recursion keeps it
kernel-computable. -/
def natDigitsGo : Nat → Nat → List Char → List Char
  | 0, _, acc => acc
  | fuel + 1, n, acc =>
    let d := Char.ofNat (48 + n % 10)
    if n < 10 then d :: acc
    else natDigitsGo fuel (n / 10) (d :: acc)

/-- Digits of a natural number, most significant first; helper for the
embedding of Python number-to-string formatting. -/
def natDigits (n : Nat) : List Char := natDigitsGo (n + 1) n []

/-- Python `str(i)` for integers. -/
def intStr (n : Int) : String :=
  if n < 0 then ⟨'-' :: natDigits n.natAbs⟩ else ⟨natDigits n.natAbs⟩

/-- Python `str(n)` for naturals (used where the value is a count). -/
def natStr (n : Nat) : String := ⟨natDigits n⟩

/-- Left pad with zeros to the given width, as in `%02d` / `%04d`. -/
def padZero (width : Nat) (n : Nat) : String :=
  let ds := natDigits n
  ⟨List.replicate (width - ds.length) '0' ++ ds⟩

/-- Python `str(v)` as used in f-string interpolation of a `JVal`. -/
def pyStr : JVal → String
  | JVal.null => "None"
  | JVal.bool b => if b then "True" else "False"
  | JVal.num n => intStr n
  | JVal.str s => s
  | JVal.arr _ => "[...]"
  | JVal.obj _ => "\x7b...\x7d"

/-- Lexicographic order on character lists: the model of Python `<` on
strings (code-point comparison). -/
def lexLt : List Char → List Char → Bool
  | [], [] => false
  | [], _ :: _ => true
  | _ :: _, [] => false
  | a :: as, b :: bs =>
    if a.toNat < b.toNat then true
    else if b.toNat < a.toNat then false
    else lexLt as bs

/-- Python `s < t` on strings. -/
def strLt (s t : String) : Bool := lexLt s.data t.data

/-- Python `s <= t` on strings. -/
def strLe (s t : String) : Bool := !strLt t s

/-- Python `s.strip()`: remove leading and trailing whitespace. -/
def pyStrip (s : String) : String :=
  ⟨((s.data.dropWhile Char.isWhitespace).reverse.dropWhile Char.isWhitespace).reverse⟩

/-- Python `s.lower()` (ASCII case folding suffices for this code base). -/
def pyLower (s : String) : String := ⟨s.data.map Char.toLower⟩

/-- Python `s.replace(" ", "_")`: single-character substring replacement. -/
def replaceSpaces (s : String) : String :=
  ⟨s.data.map fun c => if c = ' ' then '_' else c⟩

/-- Character-level splitting on commas (Python `s.split(",")`; the
empty string yields `[""]`). -/
def splitCommaChars : List Char → List (List Char)
  | [] => [[]]
  | c :: rest =>
    match splitCommaChars rest, decide (c = ',') with
    | parts, true => [] :: parts
    | [], false => [[c]]
    | h :: t, false => (c :: h) :: t

/-- Python `s.split(",")`. -/
def splitComma (s : String) : List String :=
  (splitCommaChars s.data).map fun cs => ⟨cs⟩

/-- Python `s.replace(old, "")` for a non-empty fixed pattern: remove
every non-overlapping occurrence, scanning left to right. -/
def removeSub (pat : List Char) : List Char → List Char
  | [] => []
  | c :: cs =>
    if pat.isPrefixOf (c :: cs) ∧ ¬ pat.isEmpty then
      removeSub pat (cs.drop (pat.length - 1))
    else c :: removeSub pat cs
termination_by l => l.length
decreasing_by
  · simp only [List.length_cons, List.length_drop]; omega
  · simp only [List.length_cons]; omega

/-- Truthiness of an optional string (an unset or empty environment
variable or argument is falsy). -/
def truthyOptStr : Option String → Bool
  | none => false
  | some s => s ≠ ""

/-- Truthiness of an optional list argument (`if repos:`). -/
def truthyOptList : Option (List String) → Bool
  | none => false
  | some l => !l.isEmpty

/-- Model of a Python `datetime`: days since 1970-01-01 (a Thursday) and
seconds within the day. `replace(hour=0, minute=0, second=0,
microsecond=0)` corresponds to setting `sec := 0`. -/
structure PyDateTime where
  day : Int
  sec : Nat
deriving DecidableEq, Repr

/-- Python `datetime.weekday()`: Monday is 0, Sunday is 6.
1970-01-01 was a Thursday, hence the offset 3. -/
def weekday (d : PyDateTime) : Nat := ((d.day + 3) % 7).toNat

/-- The datetime at local midnight of the same day (`datetime.now().replace(
hour=0, minute=0, second=0, microsecond=0)`). -/
def midnight (d : PyDateTime) : PyDateTime := ⟨d.day, 0⟩

/-- Subtraction of a whole number of days (`d - timedelta(days=n)`). -/
def subDays (d : PyDateTime) (n : Int) : PyDateTime := ⟨d.day - n, d.sec⟩

/-- Civil calendar date (year, month, day-of-month) from an epoch day
count, following the standard days-from-civil inverse algorithm. -/
def civilFromDays (z0 : Int) : Int × Nat × Nat :=
  let z := z0 + 719468
  let era := Int.fdiv z 146097
  let doe := (z - era * 146097).toNat
  let yoe := (doe - doe / 1460 + doe / 36524 - doe / 146096) / 365
  let y := (yoe : Int) + era * 400
  let doy := doe - (365 * yoe + yoe / 4 - yoe / 100)
  let mp := (5 * doy + 2) / 153
  let dd := doy - (153 * mp + 2) / 5 + 1
  let m := if mp < 10 then mp + 3 else mp - 9
  (if mp < 10 then y else y + 1, m, dd)

/-- English month name, as produced by `strftime("%B")`. -/
def monthName : Nat → String
  | 1 => "January"
  | 2 => "February"
  | 3 => "March"
  | 4 => "April"
  | 5 => "May"
  | 6 => "June"
  | 7 => "July"
  | 8 => "August"
  | 9 => "September"
  | 10 => "October"
  | 11 => "November"
  | 12 => "December"
  | _ => ""

/-- Python `datetime.strftime("%B %d, %Y")`, the report heading date. -/
def strftimeLong (d : PyDateTime) : String :=
  let (y, m, dd) := civilFromDays d.day
  monthName m ++ " " ++ padZero 2 dd ++ ", " ++ padZero 4 y.toNat

/-- Python `datetime.strftime("%Y-%m-%d")`. -/
def strftimeYmd (d : PyDateTime) : String :=
  let (y, m, dd) := civilFromDays d.day
  padZero 4 y.toNat ++ "-" ++ padZero 2 m ++ "-" ++ padZero 2 dd

/-- Python `datetime.isoformat()` for a whole-second datetime. -/
def isoformat (d : PyDateTime) : String :=
  strftimeYmd d ++ "T" ++ padZero 2 (d.sec / 3600) ++ ":" ++
    padZero 2 (d.sec % 3600 / 60) ++ ":" ++ padZero 2 (d.sec % 60)

/-- Embedding of `DateParser._get_last_workday` from
`src/standup/src/standup_server/utils.py`; `now` is the frozen current
instant (`datetime.now()`). -/
def get_last_workday (now : PyDateTime) : PyDateTime :=
  let today := midnight now
  let dow := weekday today
  let days_back : Int := if dow = 0 then 3 else 1
  subDays today days_back

/-- Embedding of `DateParser._get_last_weekday` from the same file. -/
def get_last_weekday (now : PyDateTime) (target_weekday : Nat) : PyDateTime :=
  let today := midnight now
  let current_weekday := weekday today
  let days_back :=
    if target_weekday ≤ current_weekday then current_weekday - target_weekday
    else 7 - (target_weekday - current_weekday)
  let days_back := if days_back = 0 then 7 else days_back
  subDays today (days_back : Int)

/-- The `weekday_map` table of `parse_date`. -/
def weekdayMap (s : String) : Option Nat :=
  if s = "monday" ∨ s = "mon" then some 0
  else if s = "tuesday" ∨ s = "tue" then some 1
  else if s = "wednesday" ∨ s = "wed" then some 2
  else if s = "thursday" ∨ s = "thu" then some 3
  else if s = "friday" ∨ s = "fri" then some 4
  else if s = "saturday" ∨ s = "sat" then some 5
  else if s = "sunday" ∨ s = "sun" then some 6
  else none

/-- Embedding of `DateParser.parse_date`. `now` is the frozen current
instant, and `genericParse` abstracts the external `dateutil` parser
(`none` models a `ValueError`/`TypeError` from it). -/
def parse_date (genericParse : String → Option PyDateTime) (now : PyDateTime)
    (date_expression : String) : PyDateTime :=
  if date_expression = "" then get_last_workday now
  else
    let expr := pyStrip (pyLower date_expression)
    if expr = "yesterday" then subDays (midnight now) 1
    else if expr = "today" then midnight now
    else if expr.startsWith "last " then
      match weekdayMap (expr.drop 5) with
      | some w => get_last_weekday now w
      | none =>
        match weekdayMap expr with
        | some w => get_last_weekday now w
        | none =>
          match genericParse expr with
          | some d => midnight d
          | none => get_last_workday now
    else
      match weekdayMap expr with
      | some w => get_last_weekday now w
      | none =>
        match genericParse expr with
        | some d => midnight d
        | none => get_last_workday now

/-- Embedding of the `GitHubEvent` dataclass of
`src/standup/src/standup_server/github.py` (identical in the CLI-backed
variant `src/standup/src/mcp_server_standup/github.py`). -/
structure GitHubEvent where
  event_type : String
  created_at : String
  repo : String
  actor : String
  payload : List (String × JVal)
  processed_info : List (String × JVal) := []

/-- Embedding of the `GitHubActivity` dataclass. -/
structure GitHubActivity where
  target_date : PyDateTime
  username : Option String
  repos : Option (List String)
  events : List GitHubEvent
  summary : List (String × JVal)

/-- The commit-deduplication key: `message.lower().replace(" ", "_")`. -/
def commitKey (message : String) : String := replaceSpaces (pyLower message)

/-- The stripped message of a raw commit record
(`commit.get("message", "").strip()`). -/
def commitMsg (commit : JVal) : String :=
  pyStrip (JVal.asStr (JVal.dget (JVal.asObj commit) "message" (JVal.str "")))

/-- The hash of a raw commit record (`commit.get("sha", "")`). -/
def commitSha (commit : JVal) : String :=
  JVal.asStr (JVal.dget (JVal.asObj commit) "sha" (JVal.str ""))

/-- The emitted commit dictionary of `_process_push_event`. -/
def mkCommitRecord (repo message sha : String) : JVal :=
  JVal.obj [("message", JVal.str message),
            ("sha", JVal.str (sha.take 7)),
            ("full_sha", JVal.str sha),
            ("link", JVal.str ("https://github.com/" ++ repo ++ "/commit/" ++ sha))]

/-- The per-commit loop body of `GitHubService._process_push_event`:
walks the raw commit list threading the `_seen_commits` set, skipping
commits with empty message or hash and previously seen keys, and
emitting `mkCommitRecord` records. -/
def dedupCommits (repo : String) (seen : List String) :
    List JVal → List JVal × List String
  | [] => ([], seen)
  | commit :: rest =>
    if commitMsg commit = "" ∨ commitSha commit = "" then dedupCommits repo seen rest
    else
      if commitKey (commitMsg commit) ∈ seen then dedupCommits repo seen rest
      else
        let res := dedupCommits repo (commitKey (commitMsg commit) :: seen) rest
        (mkCommitRecord repo (commitMsg commit) (commitSha commit) :: res.1, res.2)

/-- Embedding of `GitHubService._process_push_event`, threading the
`_seen_commits` set explicitly. -/
def process_push_event (seen : List String) (event : GitHubEvent) :
    List (String × JVal) × List String :=
  let payload := event.payload
  let ref := JVal.asStr (JVal.dget payload "ref" (JVal.str ""))
  -- `ref.replace("refs/heads/", "")`: remove every occurrence of the prefix
  let branch_name : String := ⟨removeSub "refs/heads/".data ref.data⟩
  let size := JVal.dget payload "size" (JVal.num 0)
  let res :=
    dedupCommits event.repo seen (JVal.asArr (JVal.dget payload "commits" (JVal.arr [])))
  ([("branch", JVal.str branch_name),
    ("commit_count", size),
    ("links", JVal.arr [JVal.str ("https://github.com/" ++ event.repo ++ "/tree/" ++ branch_name)]),
    ("details", JVal.arr [JVal.str ("Pushed " ++ pyStr size ++ " commits to " ++ branch_name)]),
    ("commits", JVal.arr res.1)], res.2)

/-- Embedding of `GitHubService._process_pr_event`. -/
def process_pr_event (event : GitHubEvent) : List (String × JVal) :=
  let payload := event.payload
  let pr := JVal.asObj (JVal.dget payload "pull_request" (JVal.obj []))
  let action := JVal.dget payload "action" (JVal.str "")
  let number := JVal.dget pr "number" (JVal.str "")
  let title := JVal.dget pr "title" (JVal.str "")
  [("pr_number", number),
   ("action", action),
   ("title", title),
   ("links", JVal.arr [JVal.str ("https://github.com/" ++ event.repo ++ "/pull/" ++ pyStr number)]),
   ("details", JVal.arr [JVal.str ("PR #" ++ pyStr number ++ ": " ++ pyStr action ++ " - " ++ pyStr title)])]

/-- Embedding of `GitHubService._process_comment_event`. -/
def process_comment_event (event : GitHubEvent) : List (String × JVal) :=
  let payload := event.payload
  let issue := JVal.asObj (JVal.dget payload "issue" (JVal.obj []))
  let number := JVal.dget issue "number" (JVal.str "")
  let is_pr := (JVal.dgetOpt issue "pull_request").isSome
  let link_type := if is_pr then "pull" else "issues"
  [("issue_number", number),
   ("is_pull_request", JVal.bool is_pr),
   ("links", JVal.arr [JVal.str ("https://github.com/" ++ event.repo ++ "/" ++ link_type ++ "/" ++ pyStr number)]),
   ("details", JVal.arr [JVal.str ("Commented on " ++ (if is_pr then "PR" else "issue") ++ " #" ++ pyStr number)])]

/-- Embedding of `GitHubService._process_review_event`. -/
def process_review_event (event : GitHubEvent) : List (String × JVal) :=
  let payload := event.payload
  let pr := JVal.asObj (JVal.dget payload "pull_request" (JVal.obj []))
  let review := JVal.asObj (JVal.dget payload "review" (JVal.obj []))
  let number := JVal.dget pr "number" (JVal.str "")
  let state := JVal.dget review "state" (JVal.str "")
  [("pr_number", number),
   ("review_state", state),
   ("links", JVal.arr [JVal.str ("https://github.com/" ++ event.repo ++ "/pull/" ++ pyStr number)]),
   ("details", JVal.arr [JVal.str ("Reviewed PR #" ++ pyStr number ++ ": " ++ pyStr state)])]

/-- Embedding of `GitHubService._process_ref_event` (create/delete
events); note that it yields no `links` key. -/
def process_ref_event (event : GitHubEvent) : List (String × JVal) :=
  let payload := event.payload
  let ref_type := JVal.dget payload "ref_type" (JVal.str "")
  let ref := JVal.dget payload "ref" (JVal.str "")
  let action := if event.event_type = "CreateEvent" then "Created" else "Deleted"
  [("ref_type", ref_type),
   ("ref", ref),
   ("action", JVal.str (pyLower action)),
   ("details", JVal.arr [JVal.str (action ++ " " ++ pyStr ref_type ++ " '" ++ pyStr ref ++ "'")])]

/-- Embedding of `GitHubService._process_event`: a base dictionary with
empty `links`/`details`/`commits` is `update`d with the branch that
matches the event type; only the push branch touches the seen set. -/
def process_event (seen : List String) (event : GitHubEvent) :
    List (String × JVal) × List String :=
  let processed : List (String × JVal) :=
    [("links", JVal.arr []), ("details", JVal.arr []), ("commits", JVal.arr [])]
  if event.event_type = "PushEvent" then
    let res := process_push_event seen event
    (JVal.dictUpdate processed res.1, res.2)
  else if event.event_type = "PullRequestEvent" then
    (JVal.dictUpdate processed (process_pr_event event), seen)
  else if event.event_type = "IssueCommentEvent" then
    (JVal.dictUpdate processed (process_comment_event event), seen)
  else if event.event_type = "PullRequestReviewEvent" then
    (JVal.dictUpdate processed (process_review_event event), seen)
  else if event.event_type = "CreateEvent" ∨ event.event_type = "DeleteEvent" then
    (JVal.dictUpdate processed (process_ref_event event), seen)
  else (processed, seen)

/-- Sequential classification of a list of events within one fetch: each
event's `processed_info` is computed by `process_event`, threading the
`_seen_commits` set in order (as the loops of `_get_repo_events` do). -/
def classifyEvents (seen : List String) : List GitHubEvent → List GitHubEvent × List String
  | [] => ([], seen)
  | e :: rest =>
    let res := process_event seen e
    let rest' := classifyEvents res.2 rest
    ({ e with processed_info := res.1 } :: rest'.1, rest'.2)

/-- Python dict item assignment `d[k] = v`: update in place if the key
exists, else append. -/
def dset (d : List (String × JVal)) (k : String) (v : JVal) : List (String × JVal) :=
  if (JVal.dgetOpt d k).isSome then
    d.map fun kv => if kv.1 = k then (k, v) else kv
  else d ++ [(k, v)]

/-- Insertion into the repository set (`summary["repositories"].add`),
determinized as first-occurrence order (Python materializes the set with
`list(...)` in an unspecified order). -/
def setAdd (s : List String) (x : String) : List String :=
  if x ∈ s then s else s ++ [x]

/-- One event's contribution to the summary accumulator of
`GitHubService._generate_summary` (`event_types`, `repositories`,
`commit_count`, `pr_count`). -/
def summaryStep (acc : List (String × JVal) × List String × Int × Int)
    (event : GitHubEvent) : List (String × JVal) × List String × Int × Int :=
  (dset acc.1 event.event_type
     (JVal.num (match JVal.dget acc.1 event.event_type (JVal.num 0) with
                | JVal.num n => n + 1
                | _ => 1)),
   setAdd acc.2.1 event.repo,
   (if event.event_type = "PushEvent" then
      acc.2.2.1 +
        (JVal.asArr (JVal.dget event.processed_info "commits" (JVal.arr []))).length
    else acc.2.2.1),
   (if event.event_type = "PullRequestEvent" then acc.2.2.2 + 1 else acc.2.2.2))

/-- Embedding of `GitHubService._generate_summary`. -/
def generate_summary (events : List GitHubEvent) : List (String × JVal) :=
  let res := events.foldl summaryStep ([], [], 0, 0)
  [("total_events", JVal.num events.length),
   ("event_types", JVal.obj res.1),
   ("repositories", JVal.arr (res.2.1.map JVal.str)),
   ("commit_count", JVal.num res.2.2.1),
   ("pr_count", JVal.num res.2.2.2)]

/-- Configuration state of the HTTP-backed adapter
(`src/standup/src/standup_server/github.py`): the two environment
variables and, as an oracle, the repository list that
`_get_org_repos()` would return. -/
structure HttpConfig where
  github_org : Option String
  github_repos_env : Option String
  org_repos : List String

/-- Configuration state of the CLI-backed adapter
(`src/standup/src/mcp_server_standup/github.py`); `user_repos` is the
oracle for `_get_user_repos(username)`. -/
structure CliConfig where
  github_repos : Option String
  github_org : Option String
  org_repos : List String
  user_repos : List String

/-- Outcome of repository resolution inside `get_activity`: a concrete
repository list, the CLI-only public-event-feed fallback, or the
configuration `ValueError`. -/
inductive RepoSource where
  | repoList (rs : List String)
  | userFeed
  | configError
deriving DecidableEq, Repr

/-- Strip every entry and drop the empty ones (the `repo.strip()` /
`if repo:` filtering applied to explicit repository lists). -/
def stripFilter (rs : List String) : List String :=
  (rs.map pyStrip).filter fun r => r ≠ ""

/-- Repository resolution of the HTTP-backed `get_activity`
(`src/standup/src/standup_server/github.py`, lines 89-120): explicit
`repos` argument first; otherwise `GITHUB_ORG` wins over
`GITHUB_REPOS`; otherwise a `ValueError`. -/
def resolve_repos_http (cfg : HttpConfig) (repos : Option (List String)) : RepoSource :=
  if truthyOptList repos then RepoSource.repoList (stripFilter (repos.getD []))
  else if truthyOptStr cfg.github_org then RepoSource.repoList cfg.org_repos
  else if truthyOptStr cfg.github_repos_env then
    RepoSource.repoList (stripFilter (splitComma (cfg.github_repos_env.getD "")))
  else RepoSource.configError

/-- Repository resolution of the CLI-backed `get_activity`
(`src/standup/src/mcp_server_standup/github.py`, lines 127-163 —
`username` has already been defaulted to the current user and is
non-empty there): explicit `repos` argument, then `GITHUB_REPOS`, then
`GITHUB_ORG`, then the user's own repositories, then the public event
feed; an empty resolved list raises the configuration `ValueError`. -/
def resolve_repos_cli (cfg : CliConfig) (repos : Option (List String))
    (username : String) : RepoSource :=
  if ¬ truthyOptList repos then
    if truthyOptStr cfg.github_repos then
      let r := stripFilter (splitComma (cfg.github_repos.getD ""))
      if r.isEmpty then RepoSource.configError else RepoSource.repoList r
    else if truthyOptStr cfg.github_org then
      if cfg.org_repos.isEmpty then RepoSource.configError
      else RepoSource.repoList cfg.org_repos
    else if username ≠ "" then
      if cfg.user_repos.isEmpty then RepoSource.userFeed
      else RepoSource.repoList cfg.user_repos
    else RepoSource.configError
  else RepoSource.repoList (stripFilter (repos.getD []))

/-- Modelled from the spec (§4.2 step 3, as amended by §9): the claimed
uniform precedence "explicit `repos` argument > configured explicit
repository list > configured organization's repository listing", applied
to the HTTP-backed adapter. This is the SPEC's order, written
independently of the code, for comparison with `resolve_repos_http`. -/
def resolve_repos_http_claimed (cfg : HttpConfig) (repos : Option (List String)) : RepoSource :=
  if truthyOptList repos then RepoSource.repoList (stripFilter (repos.getD []))
  else if truthyOptStr cfg.github_repos_env then
    RepoSource.repoList (stripFilter (splitComma (cfg.github_repos_env.getD "")))
  else if truthyOptStr cfg.github_org then RepoSource.repoList cfg.org_repos
  else RepoSource.configError

/-- Embedding of `mcp.types.TextContent` (only the fields the servers
set). -/
structure TextContent where
  type : String
  text : String
deriving DecidableEq, Repr

/-- Result of running one tool handler: a normal return value or a
raised exception with its message. -/
def HandlerResult := Except String (List TextContent)

/-- Embedding of `call_tool` of `src/mise/src/mcp_server_mise/server.py`:
the handler table is a partial map from names to handlers, a raised
exception becomes the `Error executing ...` block, an unknown name the
`Unknown tool: ...` block. -/
def call_tool_mise (handlers : String → Option (List (String × JVal) → HandlerResult))
    (name : String) (arguments : List (String × JVal)) : List TextContent :=
  match handlers name with
  | some h =>
    match h arguments with
    | Except.ok r => r
    | Except.error e => [⟨"text", "Error executing " ++ name ++ ": " ++ e⟩]
  | none => [⟨"text", "Unknown tool: " ++ name⟩]

/-- The dispatch table inside `handle_call_tool` of
`src/standup/src/mcp_server_standup/server.py`: the four tool names are
tried in order; an unknown name raises `ValueError` (modelled as
`Except.error`). -/
def standup_dispatch
    (get_standup_summary get_github_activity get_workday_date format_standup_report_tool :
      List (String × JVal) → HandlerResult)
    (name : String) (arguments : List (String × JVal)) : HandlerResult :=
  if name = "get_standup_summary" then get_standup_summary arguments
  else if name = "get_github_activity" then get_github_activity arguments
  else if name = "get_workday_date" then get_workday_date arguments
  else if name = "format_standup_report" then format_standup_report_tool arguments
  else Except.error ("Unknown tool: " ++ name)

/-- Embedding of the `try`/`except` wrapper of `handle_call_tool`: any
raised error (including the unknown-tool `ValueError`) becomes one
`Error: ...` block. -/
def handle_call_tool_standup
    (get_standup_summary get_github_activity get_workday_date format_standup_report_tool :
      List (String × JVal) → HandlerResult)
    (name : String) (arguments : List (String × JVal)) : List TextContent :=
  match standup_dispatch get_standup_summary get_github_activity get_workday_date
      format_standup_report_tool name arguments with
  | Except.ok r => r
  | Except.error e => [⟨"text", "Error: " ++ e⟩]

/-- Result of one page request to the external source: a JSON array of
raw event records, or an HTTP/CLI/JSON error (which the code logs and
turns into a `break`). -/
inductive PageResult where
  | ok (data : List JVal)
  | err

/-- The `created_at` field of a raw record (`event_data.get("created_at", "")`). -/
def rawCreatedAt (ev : JVal) : String :=
  JVal.asStr (JVal.dget (JVal.asObj ev) "created_at" (JVal.str ""))

/-- Embedding of `GitHubService._matches_username`. -/
def matches_username (actor_login username : String) : Bool :=
  pyLower actor_login = pyLower username

/-- The per-record loop body of `_get_repo_events`: filter one page's
records by date range and username, building classified events and
threading the seen set. The `Bool` is true when the loop hit a record
older than `start_time` and the whole function returned early. -/
def filterPage (repo : String) (username : Option String) (start_time end_time : String)
    (seen : List String) : List JVal → Bool × List GitHubEvent × List String
  | [] => (false, [], seen)
  | ev :: rest =>
    let created_at := rawCreatedAt ev
    if ¬ (strLe start_time created_at ∧ strLe created_at end_time) then
      if strLt created_at start_time then (true, [], seen)
      else filterPage repo username start_time end_time seen rest
    else
      let actor_login := JVal.asStr
        (JVal.dget (JVal.asObj (JVal.dget (JVal.asObj ev) "actor" (JVal.obj []))) "login" (JVal.str ""))
      if truthyOptStr username ∧ ¬ matches_username actor_login (username.getD "") then
        filterPage repo username start_time end_time seen rest
      else
        let github_event : GitHubEvent :=
          { event_type := JVal.asStr (JVal.dget (JVal.asObj ev) "type" (JVal.str ""))
            created_at := created_at
            repo := repo
            actor := actor_login
            payload := JVal.asObj (JVal.dget (JVal.asObj ev) "payload" (JVal.obj [])) }
        let res := process_event seen github_event
        let rest' := filterPage repo username start_time end_time res.2 rest
        (rest'.1, { github_event with processed_info := res.1 } :: rest'.2.1, rest'.2.2)

/-- The `while page <= 50` pagination loop of `_get_repo_events`
(lines 163-238 of the HTTP variant, 220-297 of the CLI variant), with
the page fetch abstracted as the oracle `pages`. Returns the collected
events, the final seen set, and the list of page numbers actually
requested. The loop runs with `page` starting at 1, so the fuel 50
models the `page <= 50` bound exactly. -/
def repoEventsLoop (pages : Nat → PageResult) (repo : String) (username : Option String)
    (start_time end_time : String) :
    Nat → Nat → List GitHubEvent → List String → List GitHubEvent × List String × List Nat
  | 0, _, events, seen => (events, seen, [])
  | Nat.succ fuel, page, events, seen =>
    match pages page with
    | PageResult.err => (events, seen, [page])
    | PageResult.ok data =>
      if data.isEmpty then (events, seen, [page])
      else
        let fp := filterPage repo username start_time end_time seen data
        let events' := events ++ fp.2.1
        if fp.1 then (events', fp.2.2, [page])
        else if data.length < 100 then (events', fp.2.2, [page])
        else if strLt (rawCreatedAt (data.getLast?.getD JVal.null)) start_time then
          (events', fp.2.2, [page])
        else
          let res :=
            repoEventsLoop pages repo username start_time end_time fuel (page + 1) events' fp.2.2
          (res.1, res.2.1, page :: res.2.2)

/-- Embedding of `GitHubService._get_repo_events`: run the pagination
loop from page 1 with the 50-page safety limit. -/
def get_repo_events (pages : Nat → PageResult) (repo : String) (username : Option String)
    (start_time end_time : String) (seen : List String) :
    List GitHubEvent × List String × List Nat :=
  repoEventsLoop pages repo username start_time end_time 50 1 [] seen

/-- Continuation condition of the pagination loop at page `p`: the page
was fetched successfully, was non-empty and full, and its last record's
timestamp was not earlier than the window's start. Every requested page
except the final one satisfies this. -/
def pageContinues (pages : Nat → PageResult) (start_time : String) (p : Nat) : Bool :=
  match pages p with
  | PageResult.err => false
  | PageResult.ok data =>
    !data.isEmpty && decide (100 ≤ data.length) &&
      !strLt (rawCreatedAt (data.getLast?.getD JVal.null)) start_time

/-- Python equality test of a dynamic value against a string literal
(`action == "opened"`): true only for equal strings. -/
def jvalEqStr (v : JVal) (s : String) : Bool :=
  match v with
  | JVal.str t => t = s
  | _ => false

/-- Python `str.title()` restricted to what the formatter needs
(capitalize the first letter of each alphabetic run). -/
def pyTitleAux : Bool → List Char → List Char
  | _, [] => []
  | prevAlpha, c :: rest =>
    (if c.isAlpha then (if prevAlpha then c.toLower else c.toUpper) else c)
      :: pyTitleAux c.isAlpha rest

/-- Python `s.title()`. -/
def pyTitle (s : String) : String := ⟨pyTitleAux false s.data⟩

/-- Python `"\n".join(lines)`. -/
def joinNL : List String → String
  | [] => ""
  | [x] => x
  | x :: xs => x ++ "\n" ++ joinNL xs

/-- The four significance buckets of `_group_significant_events`
(a Python dict with the fixed keys `commits`, `pull_requests`,
`reviews`, `other`, in that insertion order). -/
structure EventGroups where
  commits : List GitHubEvent
  pull_requests : List GitHubEvent
  reviews : List GitHubEvent
  other : List GitHubEvent

/-- The first grouping condition of `_group_significant_events`:
`event.event_type == "PushEvent" and event.processed_info.get("commits")`. -/
def inCommitsGroup (e : GitHubEvent) : Bool :=
  e.event_type = "PushEvent" &&
    JVal.pyTruthy (JVal.dget e.processed_info "commits" JVal.null)

/-- The second grouping condition: a pull-request event. -/
def inPRGroup (e : GitHubEvent) : Bool :=
  e.event_type = "PullRequestEvent"

/-- The third grouping condition: a review or review-comment event. -/
def inReviewsGroup (e : GitHubEvent) : Bool :=
  e.event_type = "PullRequestReviewEvent" ||
    e.event_type = "PullRequestReviewCommentEvent"

/-- The fourth grouping condition: an issue comment or a ref creation. -/
def inOtherGroup (e : GitHubEvent) : Bool :=
  e.event_type = "IssueCommentEvent" || e.event_type = "CreateEvent"

/-- One step of the grouping loop of `_group_significant_events`. -/
def groupStep (g : EventGroups) (e : GitHubEvent) : EventGroups :=
  if inCommitsGroup e then { g with commits := g.commits ++ [e] }
  else if inPRGroup e then { g with pull_requests := g.pull_requests ++ [e] }
  else if inReviewsGroup e then { g with reviews := g.reviews ++ [e] }
  else if inOtherGroup e then { g with other := g.other ++ [e] }
  else g

/-- Embedding of `StandupFormatter._group_significant_events`
(`src/standup/src/standup_server/formatting.py`, lines 184-208). -/
def group_significant_events (events : List GitHubEvent) : EventGroups :=
  events.foldl groupStep ⟨[], [], [], []⟩

/-- Bracket access to a field of a commit record (`commit["message"]`),
rendered as in an f-string. -/
def commitField (c : JVal) (k : String) : String :=
  pyStr (JVal.dget (JVal.asObj c) k JVal.null)

/-- One step of the `commits_by_repo` grouping: create the repository
key if new, then extend its bucket with the event's commit list. -/
def commitsByRepoStep (m : List (String × List JVal)) (e : GitHubEvent) :
    List (String × List JVal) :=
  let cs := JVal.asArr (JVal.dget e.processed_info "commits" (JVal.arr []))
  if m.any (fun kv => kv.1 = e.repo) then
    m.map fun kv => if kv.1 = e.repo then (kv.1, kv.2 ++ cs) else kv
  else m ++ [(e.repo, cs)]

/-- The `commits_by_repo` grouping of `_format_commit_items`: per
repository, the concatenation of the events' commit lists, keyed in
first-occurrence order. -/
def commitsByRepo (events : List GitHubEvent) : List (String × List JVal) :=
  events.foldl commitsByRepoStep []

/-- The per-repository rendering of `_format_commit_items`. -/
def commitRepoItems (kv : String × List JVal) : List String :=
  let (repo, commits) := kv
  if commits.length = 1 then
    let commit := commits.headD JVal.null
    ["- Committed **" ++ commitField commit "message" ++ "** to [" ++ repo ++ "](" ++
      commitField commit "link" ++ ")"]
  else
    ("- Made **" ++ natStr commits.length ++ " commits** to [" ++ repo ++
        "](https://github.com/" ++ repo ++ ")") ::
      (commits.take 3).map (fun commit =>
        "  - " ++ commitField commit "message" ++ " ([" ++ commitField commit "sha" ++
          "](" ++ commitField commit "link" ++ "))") ++
      (if commits.length > 3 then
        ["  - *(and " ++ natStr (commits.length - 3) ++ " more)*"] else [])

/-- Embedding of `StandupFormatter._format_commit_items`. -/
def format_commit_items (events : List GitHubEvent) : List String :=
  (commitsByRepo events).flatMap commitRepoItems

/-- The per-event rendering of `_format_pr_items`: a line only for the
`opened`/`closed`/`merged` actions. -/
def prItem (e : GitHubEvent) : List String :=
  let info := e.processed_info
  let action := JVal.dget info "action" (JVal.str "")
  let pr_number := JVal.dget info "pr_number" (JVal.str "")
  let title := JVal.dget info "title" (JVal.str "")
  let links := JVal.asArr (JVal.dget info "links" (JVal.arr []))
  let link := match links.head? with
    | some l => pyStr l
    | none => "https://github.com/" ++ e.repo ++ "/pull/" ++ pyStr pr_number
  if jvalEqStr action "opened" then
    ["- Opened **[PR #" ++ pyStr pr_number ++ "](" ++ link ++ ")**: " ++ pyStr title]
  else if jvalEqStr action "closed" ∨ jvalEqStr action "merged" then
    ["- " ++ pyTitle (JVal.asStr action) ++ " **[PR #" ++ pyStr pr_number ++ "](" ++
      link ++ ")**: " ++ pyStr title]
  else []

/-- Embedding of `StandupFormatter._format_pr_items`. -/
def format_pr_items (events : List GitHubEvent) : List String :=
  events.flatMap prItem

/-- One step of the `reviews_by_pr` grouping: only
`PullRequestReviewEvent` records are keyed. -/
def reviewsByPrStep (m : List (String × List GitHubEvent)) (e : GitHubEvent) :
    List (String × List GitHubEvent) :=
  if e.event_type = "PullRequestReviewEvent" then
    let key := e.repo ++ "#" ++ pyStr (JVal.dget e.processed_info "pr_number" (JVal.str ""))
    if m.any (fun kv => kv.1 = key) then
      m.map fun kv => if kv.1 = key then (kv.1, kv.2 ++ [e]) else kv
    else m ++ [(key, [e])]
  else m

/-- The `reviews_by_pr` grouping of `_format_review_items`: per
`repo#pr_number` key, the review events in arrival order. -/
def reviewsByPr (events : List GitHubEvent) : List (String × List GitHubEvent) :=
  events.foldl reviewsByPrStep []

/-- The per-PR rendering of `_format_review_items`: only the last review
event of each PR emits a line. -/
def reviewPrItem (kv : String × List GitHubEvent) : String :=
  let latest := kv.2.getLastD ⟨"", "", "", "", [], []⟩
  let info := latest.processed_info
  let pr_number := JVal.dget info "pr_number" (JVal.str "")
  let state := JVal.dget info "review_state" (JVal.str "")
  let links := JVal.asArr (JVal.dget info "links" (JVal.arr []))
  let link := match links.head? with
    | some l => pyStr l
    | none => "https://github.com/" ++ latest.repo ++ "/pull/" ++ pyStr pr_number
  "- Reviewed **[PR #" ++ pyStr pr_number ++ "](" ++ link ++ ")** (" ++ pyStr state ++ ")"

/-- Embedding of `StandupFormatter._format_review_items`. -/
def format_review_items (events : List GitHubEvent) : List String :=
  (reviewsByPr events).map reviewPrItem

/-- The per-event rendering of `_format_other_items`. -/
def otherItem (e : GitHubEvent) : List String :=
  let info := e.processed_info
  if e.event_type = "IssueCommentEvent" then
    let number := JVal.dget info "issue_number" (JVal.str "")
    let is_pr := JVal.pyTruthy (JVal.dget info "is_pull_request" (JVal.bool false))
    let links := JVal.asArr (JVal.dget info "links" (JVal.arr []))
    let link := match links.head? with
      | some l => pyStr l
      | none => ""
    let item_type := if is_pr then "PR" else "issue"
    ["- Commented on **[" ++ item_type ++ " #" ++ pyStr number ++ "](" ++ link ++ ")**"]
  else if e.event_type = "CreateEvent" then
    let ref_type := JVal.dget info "ref_type" (JVal.str "")
    let ref := JVal.dget info "ref" (JVal.str "")
    if jvalEqStr ref_type "branch" then
      ["- Created branch **" ++ pyStr ref ++ "** in " ++ e.repo]
    else []
  else []

/-- Embedding of `StandupFormatter._format_other_items`. -/
def format_other_items (events : List GitHubEvent) : List String :=
  events.flatMap otherItem

/-- Embedding of `StandupFormatter._generate_standup_items`: the four
buckets rendered in the dict's fixed insertion order. -/
def generate_standup_items (github_activity : GitHubActivity) : List String :=
  let g := group_significant_events github_activity.events
  format_commit_items g.commits ++ format_pr_items g.pull_requests ++
    format_review_items g.reviews ++ format_other_items g.other

/-- The repository list read from `summary["repositories"]`, rendered as
strings. -/
def summaryRepositories (summary : List (String × JVal)) : List String :=
  (JVal.asArr (JVal.dget summary "repositories" (JVal.arr []))).map pyStr

/-- Python `sorted` on a list of strings. -/
def sortStrings (l : List String) : List String :=
  l.mergeSort fun a b => strLe a b

/-- Embedding of `StandupFormatter._format_markdown_report`
(`formatting.py`, lines 70-106). -/
def format_markdown_report (github_activity : GitHubActivity) : String :=
  let lines := ["# Standup Summary - " ++ strftimeLong github_activity.target_date, ""]
  let standup_items := generate_standup_items github_activity
  let lines := lines ++
    (if standup_items.isEmpty then ["No significant activity to report."] else standup_items)
  let lines := lines ++ ["", "---", ""]
  let lines := lines ++
    (if github_activity.events.isEmpty then [] else
      ["## GitHub Activity Details", "",
       "**" ++ pyStr (JVal.dget github_activity.summary "total_events" JVal.null) ++
         " events** across **" ++
         natStr (summaryRepositories github_activity.summary).length ++ " repositories**",
       ""] ++
      ((sortStrings (summaryRepositories github_activity.summary)).map fun repo =>
        "- [" ++ repo ++ "](https://github.com/" ++ repo ++ ")") ++
      [""])
  joinNL lines

/-- First step of the text cleanup: Python `item.replace("**", "")` —
remove non-overlapping double stars left to right. -/
def replaceStarStar : List Char → List Char
  | [] => []
  | [c] => [c]
  | c :: c2 :: rest =>
    if c = '*' ∧ c2 = '*' then replaceStarStar rest
    else c :: replaceStarStar (c2 :: rest)

/-- Second step of the text cleanup: Python `.replace("*", "")`. -/
def replaceStar : List Char → List Char
  | [] => []
  | c :: rest => if c = '*' then replaceStar rest else c :: replaceStar rest

/-- Attempt to match the regex `\[([^\]]+)\]\(([^)]+)\)` at the current
position (just after a consumed `[`): returns the captured label and the
number of characters consumed after the `[`. The character classes
exclude the closing delimiters, so the greedy matcher is
deterministic. -/
def splitMatch (cs : List Char) : Option (List Char × Nat) :=
  let label := cs.takeWhile fun c => c ≠ ']'
  if label.isEmpty then none
  else
    match cs.dropWhile (fun c => c ≠ ']') with
    | ']' :: '(' :: rest2 =>
      let url := rest2.takeWhile fun c => c ≠ ')'
      if url.isEmpty then none
      else
        match rest2.dropWhile (fun c => c ≠ ')') with
        | ')' :: _ => some (label, label.length + 2 + url.length + 1)
        | _ => none
    | _ => none

/-- Third step of the text cleanup: Python
`re.sub(r"\[([^\]]+)\]\(([^)]+)\)", r"\1", item)` — leftmost
non-overlapping link matches collapsed to their label. -/
def collapseLinks : List Char → List Char
  | [] => []
  | c :: cs =>
    if c = '[' then
      match splitMatch cs with
      | some (label, n) => label ++ collapseLinks (cs.drop n)
      | none => c :: collapseLinks cs
    else c :: collapseLinks cs
termination_by l => l.length
decreasing_by
  · simp only [List.length_cons, List.length_drop]; omega
  · simp only [List.length_cons]; omega
  · simp only [List.length_cons]; omega

/-- The whole per-item cleanup of `_format_text_report`. -/
def cleanItem (item : String) : String :=
  ⟨collapseLinks (replaceStar (replaceStarStar item.data))⟩

/-- Embedding of `StandupFormatter._format_text_report`
(`formatting.py`, lines 108-134). -/
def format_text_report (github_activity : GitHubActivity) : String :=
  let lines := ["Standup Summary - " ++ strftimeLong github_activity.target_date,
                ⟨List.replicate 50 '='⟩, ""]
  let standup_items := generate_standup_items github_activity
  let lines := lines ++
    (if standup_items.isEmpty then ["No significant activity to report."]
     else standup_items.map cleanItem)
  joinNL lines

/-- Lowercase hexadecimal digit. -/
def hexDigit (n : Nat) : Char :=
  if n < 10 then Char.ofNat (48 + n) else Char.ofNat (87 + n % 16)

/-- Four-digit `\uXXXX` escape body. -/
def hex4 (n : Nat) : List Char :=
  [hexDigit (n / 4096 % 16), hexDigit (n / 256 % 16), hexDigit (n / 16 % 16), hexDigit (n % 16)]

/-- JSON string escaping as performed by `json.dumps` with the default
`ensure_ascii=True` (astral-plane surrogate pairs elided: the repository
only produces BMP text). -/
def jsonEscapeChar (c : Char) : List Char :=
  if c = '"' then ['\\', '"']
  else if c = '\\' then ['\\', '\\']
  else if c = '\n' then ['\\', 'n']
  else if c = '\t' then ['\\', 't']
  else if c = '\r' then ['\\', 'r']
  else if c.toNat < 32 ∨ 127 ≤ c.toNat then '\\' :: 'u' :: hex4 c.toNat
  else [c]

/-- A JSON string literal. -/
def jsonQuote (s : String) : String :=
  ⟨'"' :: (s.data.flatMap jsonEscapeChar ++ ['"'])⟩

/-- Indentation padding of `json.dumps(..., indent=2)`. -/
def jsonPad (ind : Nat) : String := ⟨List.replicate ind ' '⟩

mutual

/-- Embedding of `json.dumps(v, indent=2)` at indentation depth `ind`. -/
def dumpsVal (ind : Nat) : JVal → String
  | JVal.null => "null"
  | JVal.bool b => if b then "true" else "false"
  | JVal.num n => intStr n
  | JVal.str s => jsonQuote s
  | JVal.arr [] => "[]"
  | JVal.arr (x :: xs) =>
    "[\n" ++ dumpsItems (ind + 2) (x :: xs) ++ "\n" ++ jsonPad ind ++ "]"
  | JVal.obj [] => "\x7b\x7d"
  | JVal.obj (f :: fs) =>
    "\x7b\n" ++ dumpsFields (ind + 2) (f :: fs) ++ "\n" ++ jsonPad ind ++ "\x7d"

/-- Array elements of `json.dumps(..., indent=2)`, comma-newline
separated. -/
def dumpsItems (ind : Nat) : List JVal → String
  | [] => ""
  | [x] => jsonPad ind ++ dumpsVal ind x
  | x :: y :: xs => jsonPad ind ++ dumpsVal ind x ++ ",\n" ++ dumpsItems ind (y :: xs)

/-- Object members of `json.dumps(..., indent=2)`. -/
def dumpsFields (ind : Nat) : List (String × JVal) → String
  | [] => ""
  | [(k, v)] => jsonPad ind ++ jsonQuote k ++ ": " ++ dumpsVal ind v
  | (k, v) :: f :: fs =>
    jsonPad ind ++ jsonQuote k ++ ": " ++ dumpsVal ind v ++ ",\n" ++ dumpsFields ind (f :: fs)

end

/-- The per-event dictionary serialized by `_format_json_report`: note
that the event's `payload` field is NOT among the serialized keys. -/
def eventJson (event : GitHubEvent) : JVal :=
  JVal.obj [("type", JVal.str event.event_type),
            ("created_at", JVal.str event.created_at),
            ("repo", JVal.str event.repo),
            ("actor", JVal.str event.actor),
            ("processed_info", JVal.obj event.processed_info)]

/-- The `data` dictionary built by `StandupFormatter._format_json_report`
(`formatting.py`, lines 136-159) before `json.dumps`. -/
def jsonReportData (github_activity : GitHubActivity) : JVal :=
  JVal.obj [("date", JVal.str (isoformat github_activity.target_date)),
            ("github", JVal.obj
              [("summary", JVal.obj github_activity.summary),
               ("events", JVal.arr (github_activity.events.map eventJson))]),
            ("standup_items", JVal.arr ((generate_standup_items github_activity).map JVal.str))]

/-- Embedding of `StandupFormatter._format_json_report`. -/
def format_json_report (github_activity : GitHubActivity) : String :=
  dumpsVal 0 (jsonReportData github_activity)

/-- Embedding of `StandupFormatter.format_standup_report`
(`formatting.py`, lines 12-31): `"json"` and `"text"` are recognized;
anything else falls through to markdown. -/
def format_standup_report (github_activity : GitHubActivity) (format_type : String) : String :=
  if format_type = "json" then format_json_report github_activity
  else if format_type = "text" then format_text_report github_activity
  else format_markdown_report github_activity

/-- Everything about one event that the JSON render serializes: all the
dataclass fields except `payload`. -/
def eventObserved (e : GitHubEvent) : String × String × String × String × List (String × JVal) :=
  (e.event_type, e.created_at, e.repo, e.actor, e.processed_info)

/-- Everything the JSON render serializes about a collection: the ISO
date string, the summary, every event's payload-less fields, and the
derived standup items. The collection's `username`, `repos` and the
events' `payload` fields are absent. -/
def reportObserved (a : GitHubActivity) :
    String × List (String × JVal) ×
      List (String × String × String × String × List (String × JVal)) × List String :=
  (isoformat a.target_date, a.summary, a.events.map eventObserved, generate_standup_items a)

/-- Boolean substring test on strings (via the character lists). -/
def containsSub (s pat : String) : Bool :=
  (s.data.tails.filter fun t => pat.data.isPrefixOf t).length != 0

/-- The dedup key of an emitted commit record, recomputed from its
`message` field. -/
def emittedKey (c : JVal) : String :=
  commitKey (JVal.asStr (JVal.dget (JVal.asObj c) "message" (JVal.str "")))

/-- Well-formedness of an emitted commit record: non-empty message and
non-empty full hash. -/
def commitWellFormed (c : JVal) : Bool :=
  (JVal.asStr (JVal.dget (JVal.asObj c) "message" (JVal.str "")) != "") &&
    (JVal.asStr (JVal.dget (JVal.asObj c) "full_sha" (JVal.str "")) != "")

/-- The `commits` list of a classifier output dictionary. -/
def infoCommits (info : List (String × JVal)) : List JVal :=
  JVal.asArr (JVal.dget info "commits" (JVal.arr []))

/-- The raw commit list of a push event's payload. -/
def payloadCommits (e : GitHubEvent) : List JVal :=
  JVal.asArr (JVal.dget e.payload "commits" (JVal.arr []))

/-- All commit records emitted into `processed_info.commits` across one
fetch (the deduplication set starts empty, as `get_activity` clears it). -/
def emittedCommits (evs : List GitHubEvent) : List JVal :=
  ((classifyEvents [] evs).1).flatMap fun e => infoCommits e.processed_info

/-- Characters that interact with the markdown-stripping cleanup:
brackets, parentheses and the emphasis marker. -/
def badChar (c : Char) : Bool :=
  c = '[' || c = ']' || c = '(' || c = ')' || c = '*'

/-- A string free of cleanup-sensitive characters. -/
def noBad (s : String) : Bool := s.data.all fun c => !badChar c

/-- A non-empty string free of cleanup-sensitive characters — suitable
as a link label or URL. -/
def goodLabel (s : String) : Bool := (s ≠ "") && noBad s

/-- Cleanliness of a dynamic value as rendered in an f-string. -/
def cleanJStr (v : JVal) : Bool := noBad (pyStr v)

/-- A string value usable as a link label or URL. -/
def isCleanLabel (v : JVal) : Bool :=
  match v with
  | JVal.str s => goodLabel s
  | _ => false

/-- A string value free of cleanup-sensitive characters. -/
def isCleanStr (v : JVal) : Bool :=
  match v with
  | JVal.str s => noBad s
  | _ => false

/-- Cleanliness of one emitted commit record, as consumed by
`_format_commit_items`. -/
def cleanCommit (c : JVal) : Bool :=
  isCleanStr (JVal.dget (JVal.asObj c) "message" JVal.null) &&
  isCleanLabel (JVal.dget (JVal.asObj c) "sha" JVal.null) &&
  isCleanLabel (JVal.dget (JVal.asObj c) "link" JVal.null)

/-- Cleanliness of an event for the plain-text render: its repository
name is a usable label, its commit records are clean, the scalar fields
the item templates interpolate are free of cleanup-sensitive
characters, its links are usable URLs, and the event types whose items
embed `links[0]` carry at least one link. -/
def cleanEvent (e : GitHubEvent) : Bool :=
  goodLabel e.repo &&
  (infoCommits e.processed_info).all cleanCommit &&
  cleanJStr (JVal.dget e.processed_info "pr_number" (JVal.str "")) &&
  cleanJStr (JVal.dget e.processed_info "title" (JVal.str "")) &&
  cleanJStr (JVal.dget e.processed_info "review_state" (JVal.str "")) &&
  cleanJStr (JVal.dget e.processed_info "issue_number" (JVal.str "")) &&
  cleanJStr (JVal.dget e.processed_info "ref" (JVal.str "")) &&
  (JVal.asArr (JVal.dget e.processed_info "links" (JVal.arr []))).all isCleanLabel &&
  (!(e.event_type = "PullRequestEvent" || e.event_type = "PullRequestReviewEvent" ||
      e.event_type = "IssueCommentEvent") ||
    !(JVal.asArr (JVal.dget e.processed_info "links" (JVal.arr []))).isEmpty)

/-- Character lists whose bracket structure consists solely of
well-formed `[label](url)` links: the cleanup regex removes every `]`
from such a list. -/
inductive Linky : List Char → Prop where
  | nil : Linky []
  | chr : ∀ c l, c ≠ '[' → c ≠ ']' → Linky l → Linky (c :: l)
  | link : ∀ b c l, b ≠ [] → ']' ∉ b → c ≠ [] → ')' ∉ c → Linky l →
      Linky ('[' :: (b ++ ']' :: '(' :: (c ++ ')' :: l)))

/-- First available source in a precedence list (the spec's "the first
available source in that order is the one used"); an exhausted list is
the configuration error. -/
def firstAvailable : List (Option RepoSource) → RepoSource
  | [] => RepoSource.configError
  | some s :: _ => s
  | none :: rest => firstAvailable rest

/-- The HTTP-backed variant's actual precedence list, in the order the
code consults the sources: explicit argument, then organization listing,
then explicit configured list. -/
def http_precedence (cfg : HttpConfig) (repos : Option (List String)) :
    List (Option RepoSource) :=
  [if truthyOptList repos then
     some (RepoSource.repoList (stripFilter (repos.getD []))) else none,
   if truthyOptStr cfg.github_org then
     some (RepoSource.repoList cfg.org_repos) else none,
   if truthyOptStr cfg.github_repos_env then
     some (RepoSource.repoList (stripFilter (splitComma (cfg.github_repos_env.getD ""))))
   else none]

/-- The CLI-backed variant's precedence list, in the order the code
consults the sources: explicit argument, then explicit configured list,
then organization listing, then the user's own repositories, then the
user's public event feed. -/
def cli_precedence (cfg : CliConfig) (repos : Option (List String))
    (username : String) : List (Option RepoSource) :=
  [if truthyOptList repos then
     some (RepoSource.repoList (stripFilter (repos.getD []))) else none,
   if truthyOptStr cfg.github_repos then
     some (let r := stripFilter (splitComma (cfg.github_repos.getD ""))
           if r.isEmpty then RepoSource.configError else RepoSource.repoList r)
   else none,
   if truthyOptStr cfg.github_org then
     some (if cfg.org_repos.isEmpty then RepoSource.configError
           else RepoSource.repoList cfg.org_repos)
   else none,
   if username ≠ "" ∧ ¬ cfg.user_repos.isEmpty then
     some (RepoSource.repoList cfg.user_repos) else none,
   if username ≠ "" then some RepoSource.userFeed else none]

/-- An event is significant for the standup item list exactly when one
of the item generators emits at least one line for it: a push with a
non-empty processed commit list, a pull request opened/closed/merged, a
pull-request review, an issue comment, or a branch creation. -/
def significantEvent (e : GitHubEvent) : Bool :=
  inCommitsGroup e ||
  (e.event_type = "PullRequestEvent" &&
    (jvalEqStr (JVal.dget e.processed_info "action" (JVal.str "")) "opened" ||
     jvalEqStr (JVal.dget e.processed_info "action" (JVal.str "")) "closed" ||
     jvalEqStr (JVal.dget e.processed_info "action" (JVal.str "")) "merged")) ||
  (e.event_type = "PullRequestReviewEvent") ||
  (e.event_type = "IssueCommentEvent") ||
  (e.event_type = "CreateEvent" &&
    jvalEqStr (JVal.dget e.processed_info "ref_type" (JVal.str "")) "branch")

/-- A pipeline-built collection holding a single classified
`DeleteEvent`: its events list is non-empty, yet no standup item is
generated for it. -/
def c3CexActivity : GitHubActivity :=
  let ev : GitHubEvent :=
    { event_type := "DeleteEvent", created_at := "2024-07-23T01:00:00Z",
      repo := "org/repo", actor := "user",
      payload := [("ref_type", JVal.str "branch"), ("ref", JVal.str "old-branch")] }
  let classified := (classifyEvents [] [ev]).1
  ⟨⟨19927, 0⟩, some "user", none, classified, generate_summary classified⟩

/-- A pipeline-built collection holding a single classified
`IssueCommentEvent` (a significant event). -/
def c3WitnessActivity : GitHubActivity :=
  let ev : GitHubEvent :=
    { event_type := "IssueCommentEvent", created_at := "2024-07-23T01:00:00Z",
      repo := "org/repo", actor := "user",
      payload := [("issue", JVal.obj [("number", JVal.num 5)])] }
  let classified := (classifyEvents [] [ev]).1
  ⟨⟨19927, 0⟩, some "user", none, classified, generate_summary classified⟩

/-- A collection with no events at all: the markdown render then lists
no repositories and carries no link. -/
def c5CexActivity : GitHubActivity :=
  ⟨⟨19927, 0⟩, some "user", none, [], generate_summary []⟩

/-- A collection holding a single clean `IssueCommentEvent`, with the
summary the pipeline computes for it. -/
def c5WitnessActivity : GitHubActivity :=
  let ev : GitHubEvent :=
    { event_type := "IssueCommentEvent", created_at := "2024-07-23T01:00:00Z",
      repo := "org/repo", actor := "user", payload := [],
      processed_info :=
        [("issue_number", JVal.num 5), ("is_pull_request", JVal.bool true),
         ("links", JVal.arr [JVal.str "https://github.com/org/repo/pull/5"])] }
  ⟨⟨19927, 0⟩, some "user", none, [ev], generate_summary [ev]⟩

/-- C10: for every activity collection and every `format_type` other
than `"json"` and `"text"`, `format_standup_report` returns the same
string as for `"markdown"`: unrecognized formats silently fall back to
markdown. -/
theorem C10_format_fallback (a : GitHubActivity) (fmt : String)
    (hj : fmt ≠ "json") (ht : fmt ≠ "text") :
    format_standup_report a fmt = format_standup_report a "markdown" := by
  unfold format_standup_report
  rw [if_neg hj, if_neg ht, if_neg (by decide), if_neg (by decide)]

/-- Witness for C10 at the concrete unrecognized format `"html"` and a
concrete empty collection. -/
theorem C10_format_fallback_witness :
    ("html" : String) ≠ "json" ∧ ("html" : String) ≠ "text" ∧
      format_standup_report ⟨⟨0, 0⟩, none, none, [], []⟩ "html" =
        format_standup_report ⟨⟨0, 0⟩, none, none, [], []⟩ "markdown" :=
  ⟨by decide, by decide,
    C10_format_fallback ⟨⟨0, 0⟩, none, none, [], []⟩ "html" (by decide) (by decide)⟩

/-- C9: at the dispatch boundary of either service every call is total:
it either returns the dispatched handler's successful result unchanged,
or returns exactly one text block (which covers unknown operation names
and handler exceptions); no exception propagates out. -/
theorem C9_dispatch_degrades
    (mh : String → Option (List (String × JVal) → HandlerResult))
    (g1 g2 g3 g4 : List (String × JVal) → HandlerResult)
    (name sname : String) (args sargs : List (String × JVal)) :
    ((call_tool_mise mh name args).length = 1 ∨
      ∃ h, mh name = some h ∧ h args = Except.ok (call_tool_mise mh name args)) ∧
    ((handle_call_tool_standup g1 g2 g3 g4 sname sargs).length = 1 ∨
      ∃ r, standup_dispatch g1 g2 g3 g4 sname sargs = Except.ok r ∧
        handle_call_tool_standup g1 g2 g3 g4 sname sargs = r) := by
  constructor
  · unfold call_tool_mise
    cases hmh : mh name with
    | none => left; rfl
    | some h =>
      cases hh : h args with
      | ok r => right; exact ⟨h, rfl, by simp [hh]⟩
      | error e => left; simp [hh]
  · unfold handle_call_tool_standup
    cases hd : standup_dispatch g1 g2 g3 g4 sname sargs with
    | ok r => right; exact ⟨r, rfl, rfl⟩
    | error e => left; rfl

/-- C8: for every event (every event type, recognized or not) the
classifier output contains all three keys `links`, `details` and
`commits`, each bound to a (possibly empty) list. -/
theorem C8_processed_info_keys (seen : List String) (e : GitHubEvent) :
    ∃ l d c : List JVal,
      JVal.dgetOpt (process_event seen e).1 "links" = some (JVal.arr l) ∧
      JVal.dgetOpt (process_event seen e).1 "details" = some (JVal.arr d) ∧
      JVal.dgetOpt (process_event seen e).1 "commits" = some (JVal.arr c) := by
  unfold process_event
  by_cases h1 : e.event_type = "PushEvent" <;>
    by_cases h2 : e.event_type = "PullRequestEvent" <;>
      by_cases h3 : e.event_type = "IssueCommentEvent" <;>
        by_cases h4 : e.event_type = "PullRequestReviewEvent" <;>
          by_cases h5 : e.event_type = "CreateEvent" ∨ e.event_type = "DeleteEvent" <;>
            simp [h1, h2, h3, h4, h5, process_push_event, process_pr_event,
              process_comment_event, process_review_event, process_ref_event,
              JVal.dictUpdate, JVal.dgetOpt]

/-- C7: for every frozen instant, `parse_date` on the empty string
returns the last workday at local midnight: three days back when the
current day is a Monday (weekday 0), one day back otherwise; the second
conjunct shows the result's weekday, so on a Tuesday (weekday 1) the
result is the Monday before (weekday 0), and on a Monday it is the
preceding Friday (weekday 4). -/
theorem C7_parse_date_empty (genericParse : String → Option PyDateTime)
    (now : PyDateTime) :
    parse_date genericParse now "" =
      subDays (midnight now) (if weekday now = 0 then 3 else 1) ∧
    weekday (parse_date genericParse now "") =
      (if weekday now = 0 then 4 else (weekday now + 6) % 7) := by
  have h1 : parse_date genericParse now "" = get_last_workday now := by
    unfold parse_date; rw [if_pos rfl]
  refine ⟨by rw [h1]; rfl, ?_⟩
  rw [h1]
  unfold get_last_workday midnight subDays weekday
  by_cases hw : ((now.day + 3) % 7).toNat = 0 <;> simp [hw] <;> omega

/-- Counterexample to C4: with both `GITHUB_ORG` and `GITHUB_REPOS`
configured (to different sources) and no explicit argument, the
HTTP-backed variant uses the organization's listing, not the configured
explicit repository list that the claimed precedence would pick. -/
theorem C4_counterexample :
    resolve_repos_http ⟨some "o", some "a/b", ["o/r1"]⟩ none =
      RepoSource.repoList ["o/r1"] ∧
    resolve_repos_http_claimed ⟨some "o", some "a/b", ["o/r1"]⟩ none =
      RepoSource.repoList ["a/b"] ∧
    RepoSource.repoList ["o/r1"] ≠ RepoSource.repoList ["a/b"] := by
  refine ⟨rfl, ?_, by decide⟩
  show RepoSource.repoList (stripFilter (splitComma "a/b")) = RepoSource.repoList ["a/b"]
  rfl

/-- C4 as amended: each variant resolves the repository source as the
first available entry of its own precedence list — the CLI-backed
variant in the claimed order (argument, explicit list, organization,
user repositories, user feed), but the HTTP-backed variant consults the
organization listing BEFORE the configured explicit list. -/
theorem C4_amended_precedence (cfgH : HttpConfig) (cfgC : CliConfig)
    (reposH reposC : Option (List String)) (username : String) :
    resolve_repos_http cfgH reposH = firstAvailable (http_precedence cfgH reposH) ∧
    resolve_repos_cli cfgC reposC username =
      firstAvailable (cli_precedence cfgC reposC username) := by
  constructor
  · unfold resolve_repos_http http_precedence
    by_cases h1 : truthyOptList reposH <;>
      by_cases h2 : truthyOptStr cfgH.github_org <;>
        by_cases h3 : truthyOptStr cfgH.github_repos_env <;>
          simp [h1, h2, h3, firstAvailable]
  · unfold resolve_repos_cli cli_precedence
    by_cases h1 : truthyOptList reposC <;>
      by_cases h2 : truthyOptStr cfgC.github_repos <;>
        by_cases h3 : truthyOptStr cfgC.github_org <;>
          by_cases h4 : username = "" <;>
            by_cases h5 : cfgC.user_repos.isEmpty <;>
              simp [h1, h2, h3, h4, h5, firstAvailable]


/-- The key of an emitted commit record is the dedup key of its message. -/
theorem emittedKey_mk (repo m s : String) :
    emittedKey (mkCommitRecord repo m s) = commitKey m := by
  simp [emittedKey, mkCommitRecord, JVal.asObj, JVal.dget, JVal.asStr]

/-- Emitted commit records carry the non-empty message and hash they
were built from. -/
theorem commitWellFormed_mk (repo m s : String) (hm : m ≠ "") (hs : s ≠ "") :
    commitWellFormed (mkCommitRecord repo m s) = true := by
  simp [commitWellFormed, mkCommitRecord, JVal.asObj, JVal.dget, JVal.asStr, hm, hs]

/-- The seen set only grows across `dedupCommits`. -/
theorem dedupCommits_seen_sub (repo : String) (cs : List JVal) :
    ∀ seen, ∀ x ∈ seen, x ∈ (dedupCommits repo seen cs).2 := by
  induction cs with
  | nil => intro seen x hx; simpa [dedupCommits] using hx
  | cons c rest ih =>
    intro seen x hx
    simp only [dedupCommits]
    split
    · exact ih seen x hx
    · split
      · exact ih seen x hx
      · exact ih _ x (List.mem_cons_of_mem _ hx)

/-- Core deduplication invariant of the per-commit loop: emitted records
have pairwise distinct keys, each key is fresh for the incoming seen set
and recorded in the outgoing one, and every emitted record has a
non-empty message and hash. -/
theorem dedupCommits_emitted (repo : String) (cs : List JVal) :
    ∀ seen,
      ((dedupCommits repo seen cs).1.map emittedKey).Nodup ∧
      ∀ c ∈ (dedupCommits repo seen cs).1,
        emittedKey c ∉ seen ∧ emittedKey c ∈ (dedupCommits repo seen cs).2 ∧
          commitWellFormed c = true := by
  induction cs with
  | nil => intro seen; simp [dedupCommits]
  | cons c rest ih =>
    intro seen
    simp only [dedupCommits]
    split
    · exact ih seen
    · split
      · exact ih seen
      · rename_i hne hnin
        obtain ⟨ihnd, ihmem⟩ := ih (commitKey (commitMsg c) :: seen)
        have hmsg : commitMsg c ≠ "" := fun h => hne (Or.inl h)
        have hsha : commitSha c ≠ "" := fun h => hne (Or.inr h)
        constructor
        · simp only [List.map_cons, List.nodup_cons, emittedKey_mk]
          refine ⟨?_, ihnd⟩
          intro hmem
          obtain ⟨c', hc', hkey⟩ := List.mem_map.mp hmem
          exact (ihmem c' hc').1 (hkey ▸ List.mem_cons_self _ _)
        · intro c' hc'
          rcases List.mem_cons.mp hc' with h | h
          · subst h
            refine ⟨by rw [emittedKey_mk]; exact hnin, ?_,
              commitWellFormed_mk repo _ _ hmsg hsha⟩
            rw [emittedKey_mk]
            exact dedupCommits_seen_sub repo rest _ _ (List.mem_cons_self _ _)
          · obtain ⟨h1, h2, h3⟩ := ihmem c' h
            exact ⟨fun hx => h1 (List.mem_cons_of_mem _ hx), h2, h3⟩

/-- The seen set only grows across `process_event`. -/
theorem process_event_seen_sub (seen : List String) (e : GitHubEvent) :
    ∀ x ∈ seen, x ∈ (process_event seen e).2 := by
  intro x hx
  unfold process_event
  split
  · exact dedupCommits_seen_sub _ _ _ x hx
  · split
    · exact hx
    · split
      · exact hx
      · split
        · exact hx
        · split
          · exact hx
          · exact hx

/-- Characterization of the classifier output at the `commits` key and
of the outgoing seen set: only the push branch emits commits or touches
the seen set. -/
theorem process_event_commits (seen : List String) (e : GitHubEvent) :
    infoCommits (process_event seen e).1 =
      (if e.event_type = "PushEvent" then
        (dedupCommits e.repo seen (payloadCommits e)).1 else []) ∧
    (process_event seen e).2 =
      (if e.event_type = "PushEvent" then
        (dedupCommits e.repo seen (payloadCommits e)).2 else seen) := by
  unfold process_event
  by_cases h1 : e.event_type = "PushEvent" <;>
    by_cases h2 : e.event_type = "PullRequestEvent" <;>
      by_cases h3 : e.event_type = "IssueCommentEvent" <;>
        by_cases h4 : e.event_type = "PullRequestReviewEvent" <;>
          by_cases h5 : e.event_type = "CreateEvent" ∨ e.event_type = "DeleteEvent" <;>
            simp [h1, h2, h3, h4, h5, process_push_event, process_pr_event,
              process_comment_event, process_review_event, process_ref_event,
              JVal.dictUpdate, JVal.dgetOpt, JVal.dget, infoCommits, payloadCommits,
              JVal.asArr]

/-- The seen set only grows across `classifyEvents`. -/
theorem classifyEvents_seen_sub (evs : List GitHubEvent) :
    ∀ seen, ∀ x ∈ seen, x ∈ (classifyEvents seen evs).2 := by
  induction evs with
  | nil => intro seen x hx; simpa [classifyEvents] using hx
  | cons e rest ih =>
    intro seen x hx
    simp only [classifyEvents]
    exact ih _ x (process_event_seen_sub seen e x hx)

/-- Fetch-wide deduplication invariant, generalized over the initial
seen set: all commit records emitted across a classified event sequence
have pairwise distinct keys, keys fresh for the initial seen set and
recorded in the final one, and non-empty message and hash fields. -/
theorem classifyEvents_emitted (evs : List GitHubEvent) :
    ∀ seen,
      ((((classifyEvents seen evs).1.flatMap fun e =>
          infoCommits e.processed_info).map emittedKey).Nodup ∧
       ∀ c ∈ (classifyEvents seen evs).1.flatMap
           (fun e => infoCommits e.processed_info),
         emittedKey c ∉ seen ∧ emittedKey c ∈ (classifyEvents seen evs).2 ∧
           commitWellFormed c = true) := by
  induction evs with
  | nil => intro seen; simp [classifyEvents]
  | cons e rest ih =>
    intro seen
    obtain ⟨hinfo, hseen⟩ := process_event_commits seen e
    obtain ⟨ihnd, ihmem⟩ := ih (process_event seen e).2
    simp only [classifyEvents, List.flatMap_cons, List.map_append, List.mem_append]
    by_cases hp : e.event_type = "PushEvent"
    · rw [if_pos hp] at hinfo hseen
      obtain ⟨dnd, dmem⟩ := dedupCommits_emitted e.repo (payloadCommits e) seen
      constructor
      · rw [hinfo]
        refine List.Nodup.append dnd ihnd ?_
        intro k hk1 hk2
        obtain ⟨c1, hc1, hkey1⟩ := List.mem_map.mp hk1
        obtain ⟨c2, hc2, hkey2⟩ := List.mem_map.mp hk2
        have h1 := (dmem c1 hc1).2.1
        have h2 := (ihmem c2 hc2).1
        rw [hkey1] at h1
        rw [hkey2] at h2
        rw [← hseen] at h1
        exact h2 h1
      · intro c hc
        rcases hc with hc | hc
        · rw [hinfo] at hc
          obtain ⟨h1, h2, h3⟩ := dmem c hc
          refine ⟨h1, ?_, h3⟩
          have : emittedKey c ∈ (process_event seen e).2 := by rw [hseen]; exact h2
          exact classifyEvents_seen_sub rest _ _ this
        · obtain ⟨h1, h2, h3⟩ := ihmem c hc
          refine ⟨fun hx => h1 ?_, h2, h3⟩
          exact process_event_seen_sub seen e _ hx
    · rw [if_neg hp] at hinfo hseen
      rw [hinfo]
      constructor
      · simpa using ihnd
      · intro c hc
        rcases hc with hc | hc
        · simp at hc
        · obtain ⟨h1, h2, h3⟩ := ihmem c hc
          exact ⟨fun hx => h1 (by rw [hseen]; exact hx), h2, h3⟩

/-- C1: within one fetch (seen set cleared at the start), the commit
records emitted into `processed_info.commits` across all push events
have pairwise distinct normalized message keys — a repeated key, even
with a different hash, is never emitted again — and every emitted record
has a non-empty message and a non-empty hash. -/
theorem C1_commit_dedup (evs : List GitHubEvent) :
    ((emittedCommits evs).map emittedKey).Nodup ∧
    (emittedCommits evs).all commitWellFormed = true := by
  obtain ⟨hnd, hmem⟩ := classifyEvents_emitted evs []
  refine ⟨hnd, ?_⟩
  rw [List.all_eq_true]
  intro c hc
  exact (hmem c hc).2.2

/-- Pagination loop invariant: with `fuel` iterations left the loop
issues at most `fuel` further page requests, and every requested page
except the final one satisfied the continuation conditions (successful
fetch, non-empty full page, last record not older than the window
start). -/
theorem repoEventsLoop_reqs (pages : Nat → PageResult) (repo : String)
    (username : Option String) (start_time end_time : String) :
    ∀ fuel page events seen,
      (repoEventsLoop pages repo username start_time end_time fuel page events seen).2.2.length ≤ fuel ∧
      ((repoEventsLoop pages repo username start_time end_time fuel page events seen).2.2.dropLast).all
          (pageContinues pages start_time) = true := by
  intro fuel
  induction fuel with
  | zero => intro page events seen; simp [repoEventsLoop]
  | succ fuel ih =>
    intro page events seen
    simp only [repoEventsLoop]
    cases hp : pages page with
    | err => simp
    | ok data =>
      by_cases hempty : data.isEmpty
      · simp [hempty]
      · simp only [hempty, Bool.false_eq_true, if_false, if_neg]
        by_cases hearly : (filterPage repo username start_time end_time seen data).1
        · simp [hearly]
        · by_cases hlen : data.length < 100
          · simp [hearly, hlen]
          · by_cases hlast : strLt (rawCreatedAt (data.getLast?.getD JVal.null)) start_time = true
            · simp [hearly, hlen, hlast]
            · simp only [hearly, hlen, hlast, Bool.false_eq_true, if_false]
              have hcont : pageContinues pages start_time page = true := by
                simp [pageContinues, hp, hempty, hlast]
                omega
              obtain ⟨ihlen, ihall⟩ := ih (page + 1)
                (events ++ (filterPage repo username start_time end_time seen data).2.1)
                (filterPage repo username start_time end_time seen data).2.2
              refine ⟨by simpa using Nat.succ_le_succ ihlen, ?_⟩
              cases hr : (repoEventsLoop pages repo username start_time end_time fuel (page + 1)
                  (events ++ (filterPage repo username start_time end_time seen data).2.1)
                  (filterPage repo username start_time end_time seen data).2.2).2.2 with
              | nil => simp
              | cons r rs =>
                rw [List.dropLast_cons₂]
                rw [hr] at ihall
                simp only [List.all_cons, Bool.and_eq_true] at ihall ⊢
                refine ⟨hcont, ?_⟩
                cases rs with
                | nil => simp
                | cons r2 rs2 =>
                  rw [List.dropLast_cons₂] at ihall
                  simp only [List.all_cons, Bool.and_eq_true] at ihall
                  simp [ihall.1, ihall.2]

/-- C6: for every repository, page oracle and window, the pagination of
`_get_repo_events` requests at most 50 pages, and every requested page
except the final one was a successful, full, non-empty page whose last
record's timestamp was not earlier than the window's start — so no
further page is requested after a page whose last record precedes the
start. -/
theorem C6_pagination_bounds (pages : Nat → PageResult) (repo : String)
    (username : Option String) (start_time end_time : String) (seen : List String) :
    (get_repo_events pages repo username start_time end_time seen).2.2.length ≤ 50 ∧
    ((get_repo_events pages repo username start_time end_time seen).2.2.dropLast).all
        (pageContinues pages start_time) = true :=
  repoEventsLoop_reqs pages repo username start_time end_time 50 1 [] seen

/-- Two events serialize to the same JSON dictionary exactly when they
agree on everything except (possibly) their `payload`. -/
theorem eventJson_eq_iff (e1 e2 : GitHubEvent) :
    eventJson e1 = eventJson e2 ↔ eventObserved e1 = eventObserved e2 := by
  simp only [eventJson, eventObserved, JVal.obj.injEq, List.cons.injEq, Prod.mk.injEq,
    JVal.str.injEq, and_true, true_and]

/-- Lifting of `eventJson_eq_iff` to event lists. -/
theorem map_eventJson_eq_iff (l1 : List GitHubEvent) :
    ∀ l2 : List GitHubEvent,
      l1.map eventJson = l2.map eventJson ↔ l1.map eventObserved = l2.map eventObserved := by
  induction l1 with
  | nil => intro l2; cases l2 <;> simp
  | cons e t ih =>
    intro l2
    cases l2 with
    | nil => simp
    | cons e2 t2 => simp [eventJson_eq_iff, ih]

/-- Injectivity of tagging strings as JSON values. -/
theorem map_str_eq_iff (l1 : List String) :
    ∀ l2 : List String, l1.map JVal.str = l2.map JVal.str ↔ l1 = l2 := by
  induction l1 with
  | nil => intro l2; cases l2 <;> simp
  | cons s t ih =>
    intro l2
    cases l2 with
    | nil => simp
    | cons s2 t2 => simp [ih]

/-- C2 as amended: the JSON render serializes, with full fidelity,
exactly the date's ISO string, the summary, every event's `type`,
`created_at`, `repo`, `actor` and `processed_info`, and the derived
standup items — two collections produce the same serialized tree if and
only if they agree on those; an event's `payload` (and the collection's
`username`/`repos`) is omitted and lost. -/
theorem C2_amended_fidelity (a b : GitHubActivity) :
    format_json_report a = dumpsVal 0 (jsonReportData a) ∧
    (jsonReportData a = jsonReportData b ↔ reportObserved a = reportObserved b) := by
  refine ⟨rfl, ?_⟩
  unfold jsonReportData reportObserved
  simp only [JVal.obj.injEq, List.cons.injEq, Prod.mk.injEq, JVal.str.injEq,
    JVal.arr.injEq, and_true, true_and, map_eventJson_eq_iff, map_str_eq_iff]
  tauto

/-- Counterexample to C2 as stated: two collections that differ in an
event's `payload` field render to the identical JSON string, so the
render loses information present in the in-memory model. -/
theorem C2_counterexample :
    format_json_report
        ⟨⟨0, 0⟩, none, none, [⟨"X", "t", "r", "a", [("k", JVal.num 1)], []⟩], []⟩ =
      format_json_report
        ⟨⟨0, 0⟩, none, none, [⟨"X", "t", "r", "a", [("k", JVal.num 2)], []⟩], []⟩ ∧
    (⟨⟨0, 0⟩, none, none, [⟨"X", "t", "r", "a", [("k", JVal.num 1)], []⟩], []⟩ : GitHubActivity) ≠
      ⟨⟨0, 0⟩, none, none, [⟨"X", "t", "r", "a", [("k", JVal.num 2)], []⟩], []⟩ := by
  constructor
  · exact congrArg (dumpsVal 0) rfl
  · intro h
    simp at h

/-- The grouping fold appends each event to the bucket of the first
matching condition, so the four buckets are filters of the event list. -/
theorem foldl_groupStep (evs : List GitHubEvent) :
    ∀ g, evs.foldl groupStep g =
      ⟨g.commits ++ evs.filter inCommitsGroup,
       g.pull_requests ++ evs.filter inPRGroup,
       g.reviews ++ evs.filter inReviewsGroup,
       g.other ++ evs.filter inOtherGroup⟩ := by
  induction evs with
  | nil => intro g; simp
  | cons e t ih =>
    intro g
    simp only [List.foldl_cons, List.filter_cons]
    by_cases h1 : inCommitsGroup e
    · have htype : e.event_type = "PushEvent" := by
        simp only [inCommitsGroup, Bool.and_eq_true, decide_eq_true_eq] at h1
        exact h1.1
      have h2 : inPRGroup e = false := by simp [inPRGroup, htype]
      have h3 : inReviewsGroup e = false := by simp [inReviewsGroup, htype]
      have h4 : inOtherGroup e = false := by simp [inOtherGroup, htype]
      rw [ih]
      simp [groupStep, h1, h2, h3, h4]
    · by_cases h2 : inPRGroup e
      · have htype : e.event_type = "PullRequestEvent" := by
          simpa [inPRGroup] using h2
        have h3 : inReviewsGroup e = false := by simp [inReviewsGroup, htype]
        have h4 : inOtherGroup e = false := by simp [inOtherGroup, htype]
        rw [ih]
        simp [groupStep, h1, h2, h3, h4]
      · by_cases h3 : inReviewsGroup e
        · have h4 : inOtherGroup e = false := by
            simp only [inReviewsGroup, Bool.or_eq_true, decide_eq_true_eq] at h3
            rcases h3 with ht | ht <;> simp [inOtherGroup, ht]
          rw [ih]
          simp [groupStep, h1, h2, h3, h4]
        · by_cases h4 : inOtherGroup e
          · rw [ih]
            simp [groupStep, h1, h2, h3, h4]
          · rw [ih]
            simp [groupStep, h1, h2, h3, h4]

/-- Every repository bucket renders at least one line (the single-commit
line, or the `Made N commits` summary line). -/
theorem commitRepoItems_ne_nil (kv : String × List JVal) : commitRepoItems kv ≠ [] := by
  obtain ⟨repo, commits⟩ := kv
  by_cases h : commits.length = 1 <;> simp [commitRepoItems, h]

/-- The `commits_by_repo` fold never shrinks the bucket list. -/
theorem foldl_commitsByRepoStep_ne_nil (evs : List GitHubEvent) :
    ∀ m, m ≠ [] → evs.foldl commitsByRepoStep m ≠ [] := by
  induction evs with
  | nil => intro m h; simpa using h
  | cons e t ih =>
    intro m h
    simp only [List.foldl_cons]
    apply ih
    unfold commitsByRepoStep
    split
    · simpa using h
    · simp

/-- A non-empty commit group yields a non-empty bucket list. -/
theorem commitsByRepo_ne_nil (evs : List GitHubEvent) (h : evs ≠ []) :
    commitsByRepo evs ≠ [] := by
  cases evs with
  | nil => exact absurd rfl h
  | cons e t =>
    unfold commitsByRepo
    simp only [List.foldl_cons]
    apply foldl_commitsByRepoStep_ne_nil
    simp [commitsByRepoStep]

/-- A non-empty commit group yields at least one standup item. -/
theorem format_commit_items_ne_nil (evs : List GitHubEvent) (h : evs ≠ []) :
    format_commit_items evs ≠ [] := by
  unfold format_commit_items
  have h2 := commitsByRepo_ne_nil evs h
  cases hcb : commitsByRepo evs with
  | nil => exact absurd hcb h2
  | cons kv t =>
    intro hc
    rw [List.flatMap_cons, List.append_eq_nil] at hc
    exact commitRepoItems_ne_nil kv hc.1

/-- A member with a non-empty image makes the whole `flatMap` non-empty. -/
theorem flatMap_ne_nil_of_mem {α β : Type} (f : α → List β) {l : List α} {x : α}
    (hx : x ∈ l) (hf : f x ≠ []) : l.flatMap f ≠ [] := by
  intro h
  cases hfx : f x with
  | nil => exact hf hfx
  | cons y ys =>
    have hy : y ∈ l.flatMap f :=
      List.mem_flatMap.mpr ⟨x, hx, by rw [hfx]; exact List.mem_cons_self _ _⟩
    rw [h] at hy
    exact absurd hy (List.not_mem_nil y)

/-- A dynamic value equals a string literal exactly when it is that
string. -/
theorem jvalEqStr_eq (v : JVal) (s : String) : jvalEqStr v s = true ↔ v = JVal.str s := by
  cases v <;> simp [jvalEqStr]

/-- A pull-request event whose classified action is opened, closed or
merged renders one line. -/
theorem prItem_ne_nil (e : GitHubEvent)
    (h : jvalEqStr (JVal.dget e.processed_info "action" (JVal.str "")) "opened" = true ∨
      jvalEqStr (JVal.dget e.processed_info "action" (JVal.str "")) "closed" = true ∨
      jvalEqStr (JVal.dget e.processed_info "action" (JVal.str "")) "merged" = true) :
    prItem e ≠ [] := by
  unfold prItem
  rcases h with h | h | h <;> rw [jvalEqStr_eq] at h <;> simp [h, jvalEqStr]

/-- One `reviews_by_pr` step never empties the key list. -/
theorem reviewsByPrStep_ne_nil (m : List (String × List GitHubEvent)) (e : GitHubEvent)
    (h : m ≠ []) : reviewsByPrStep m e ≠ [] := by
  unfold reviewsByPrStep
  by_cases h1 : e.event_type = "PullRequestReviewEvent"
  · rw [if_pos h1]
    dsimp only
    split
    · simpa using h
    · simp
  · rw [if_neg h1]; exact h

/-- The `reviews_by_pr` fold never shrinks the key list. -/
theorem foldl_reviewsByPrStep_ne_nil (evs : List GitHubEvent) :
    ∀ m, m ≠ [] → evs.foldl reviewsByPrStep m ≠ [] := by
  induction evs with
  | nil => intro m h; simpa using h
  | cons e t ih =>
    intro m h
    simp only [List.foldl_cons]
    exact ih _ (reviewsByPrStep_ne_nil m e h)

/-- A group containing a `PullRequestReviewEvent` produces at least one
`reviews_by_pr` key. -/
theorem reviewsByPr_ne_nil (evs : List GitHubEvent)
    (h : ∃ e ∈ evs, e.event_type = "PullRequestReviewEvent") :
    reviewsByPr evs ≠ [] := by
  induction evs with
  | nil => obtain ⟨e, he, _⟩ := h; exact absurd he (List.not_mem_nil e)
  | cons e t ih =>
    unfold reviewsByPr
    simp only [List.foldl_cons]
    by_cases hrev : e.event_type = "PullRequestReviewEvent"
    · apply foldl_reviewsByPrStep_ne_nil
      simp [reviewsByPrStep, hrev]
    · obtain ⟨e0, he0, ht0⟩ := h
      rcases List.mem_cons.mp he0 with rfl | hmem
      · exact absurd ht0 hrev
      · have : reviewsByPrStep [] e = [] := by simp [reviewsByPrStep, hrev]
        rw [this]
        exact ih ⟨e0, hmem, ht0⟩

/-- An issue-comment event always renders one line. -/
theorem otherItem_comment_ne_nil (e : GitHubEvent)
    (h : e.event_type = "IssueCommentEvent") : otherItem e ≠ [] := by
  simp [otherItem, h]

/-- A branch-creation event always renders one line. -/
theorem otherItem_branch_ne_nil (e : GitHubEvent)
    (h1 : e.event_type = "CreateEvent")
    (h2 : jvalEqStr (JVal.dget e.processed_info "ref_type" (JVal.str "")) "branch" = true) :
    otherItem e ≠ [] := by
  simp [otherItem, h1, h2]

/-- A collection containing at least one significant event generates at
least one standup item. -/
theorem generate_standup_items_ne_nil (a : GitHubActivity)
    (h : a.events.any significantEvent = true) :
    generate_standup_items a ≠ [] := by
  obtain ⟨e, he, hsig⟩ := List.any_eq_true.mp h
  unfold generate_standup_items group_significant_events
  rw [foldl_groupStep a.events ⟨[], [], [], []⟩]
  simp only [List.nil_append]
  intro hnil
  rw [List.append_eq_nil, List.append_eq_nil, List.append_eq_nil] at hnil
  obtain ⟨⟨⟨hc, hpr⟩, hrv⟩, hot⟩ := hnil
  simp only [significantEvent, Bool.or_eq_true, Bool.and_eq_true, decide_eq_true_eq] at hsig
  rcases hsig with (((hca | hprc) | hrva) | hic) | hce
  · exact format_commit_items_ne_nil _
      (List.ne_nil_of_mem (List.mem_filter.mpr ⟨he, hca⟩)) hc
  · obtain ⟨htype, hact⟩ := hprc
    refine flatMap_ne_nil_of_mem prItem
      (List.mem_filter.mpr ⟨he, by simp [inPRGroup, htype]⟩) ?_ hpr
    exact prItem_ne_nil e (by tauto)
  · have hmem : e ∈ a.events.filter inReviewsGroup :=
      List.mem_filter.mpr ⟨he, by simp [inReviewsGroup, hrva]⟩
    have hne := reviewsByPr_ne_nil (a.events.filter inReviewsGroup) ⟨e, hmem, hrva⟩
    simp only [format_review_items, List.map_eq_nil_iff] at hrv
    exact hne hrv
  · refine flatMap_ne_nil_of_mem otherItem
      (List.mem_filter.mpr ⟨he, by simp [inOtherGroup, hic]⟩) ?_ hot
    exact otherItem_comment_ne_nil e hic
  · obtain ⟨htype, hbranch⟩ := hce
    refine flatMap_ne_nil_of_mem otherItem
      (List.mem_filter.mpr ⟨he, by simp [inOtherGroup, htype]⟩) ?_ hot
    exact otherItem_branch_ne_nil e htype hbranch

/-- Counterexample to C3 as stated: a pipeline-built collection with one
(classified) `DeleteEvent` has a non-empty events list, yet its JSON
render carries an empty `standup_items` array. -/
theorem C3_counterexample :
    c3CexActivity.events.length = 1 ∧
    JVal.asArr (JVal.dget (JVal.asObj (jsonReportData c3CexActivity))
        "standup_items" JVal.null) = [] :=
  ⟨rfl, rfl⟩

/-- C3 as amended: the JSON render's tree reproduces the collection's
summary (hence `summary.total_events`) and an events array of the same
length as the events list, and the `standup_items` array is non-empty
whenever the events list contains at least one significant event (a
push with non-empty processed commits, a pull request
opened/closed/merged, a pull-request review, an issue comment, or a
branch creation). -/
theorem C3_amended_json_roundtrip (a : GitHubActivity)
    (h : a.events.any significantEvent = true) :
    JVal.dget (JVal.asObj (JVal.dget (JVal.asObj (jsonReportData a)) "github" JVal.null))
        "summary" JVal.null = JVal.obj a.summary ∧
    (JVal.asArr (JVal.dget (JVal.asObj (JVal.dget (JVal.asObj (jsonReportData a))
        "github" JVal.null)) "events" JVal.null)).length = a.events.length ∧
    JVal.asArr (JVal.dget (JVal.asObj (jsonReportData a)) "standup_items" JVal.null) ≠ [] := by
  refine ⟨?_, ?_, ?_⟩
  · simp [jsonReportData, JVal.asObj, JVal.dget]
  · simp [jsonReportData, JVal.asObj, JVal.dget, JVal.asArr]
  · have hitems := generate_standup_items_ne_nil a h
    simp only [jsonReportData, JVal.asObj, JVal.dget, JVal.asArr]
    simp only [show ("date" = "github") = False by simp, show ("date" = "standup_items") = False by simp]
    intro hc
    simp at hc
    exact hitems hc

/-- Witness for C3 at a concrete collection holding one classified
issue-comment event. -/
theorem C3_amended_json_roundtrip_witness :
    (c3WitnessActivity.events.any significantEvent = true) ∧
    (JVal.dget (JVal.asObj (JVal.dget (JVal.asObj (jsonReportData c3WitnessActivity))
        "github" JVal.null)) "summary" JVal.null = JVal.obj c3WitnessActivity.summary ∧
     (JVal.asArr (JVal.dget (JVal.asObj (JVal.dget (JVal.asObj (jsonReportData c3WitnessActivity))
        "github" JVal.null)) "events" JVal.null)).length = c3WitnessActivity.events.length ∧
     JVal.asArr (JVal.dget (JVal.asObj (jsonReportData c3WitnessActivity))
        "standup_items" JVal.null) ≠ []) :=
  ⟨by decide, C3_amended_json_roundtrip c3WitnessActivity (by decide)⟩

/-- Correctness of the substring checker: it decides list-infix on the
character lists. -/
theorem containsSub_iff (s pat : String) :
    containsSub s pat = true ↔ pat.data <:+: s.data := by
  unfold containsSub
  rw [bne_iff_ne]
  constructor
  · intro h
    have hne : (s.data.tails.filter fun t => pat.data.isPrefixOf t) ≠ [] :=
      fun hnil => h (by rw [hnil]; rfl)
    obtain ⟨t, ht⟩ := List.exists_mem_of_ne_nil _ hne
    have hmf := List.mem_filter.mp ht
    exact List.infix_iff_prefix_suffix.mpr
      ⟨t, List.isPrefixOf_iff_prefix.mp hmf.2, (List.mem_tails _ _).mp hmf.1⟩
  · intro h
    obtain ⟨t, hp, hsfx⟩ := List.infix_iff_prefix_suffix.mp h
    have hmem : t ∈ s.data.tails.filter fun t => pat.data.isPrefixOf t :=
      List.mem_filter.mpr ⟨(List.mem_tails _ _).mpr hsfx, List.isPrefixOf_iff_prefix.mpr hp⟩
    intro hlen
    rw [List.length_eq_zero] at hlen
    rw [hlen] at hmem
    exact List.not_mem_nil _ hmem

/-- Digit characters survive any character predicate that accepts the
ten digits. -/
theorem natDigitsGo_all (p : Char → Bool) (hd : ∀ d, d < 10 → p (Char.ofNat (48 + d)) = true) :
    ∀ fuel n acc, acc.all p = true → (natDigitsGo fuel n acc).all p = true := by
  intro fuel
  induction fuel with
  | zero => intro n acc h; simpa [natDigitsGo] using h
  | succ fuel ih =>
    intro n acc h
    simp only [natDigitsGo]
    split
    · simp only [List.all_cons, Bool.and_eq_true]
      exact ⟨hd (n % 10) (Nat.mod_lt _ (by omega)), h⟩
    · refine ih _ _ ?_
      simp only [List.all_cons, Bool.and_eq_true]
      exact ⟨hd (n % 10) (Nat.mod_lt _ (by omega)), h⟩

/-- Rendered naturals contain no cleanup-sensitive characters. -/
theorem noBad_natStr (n : Nat) : noBad (natStr n) = true := by
  refine natDigitsGo_all _ ?_ (n + 1) n [] rfl
  intro d hd
  interval_cases d <;> decide

/-- Zero-padded numbers contain no cleanup-sensitive characters. -/
theorem noBad_padZero (w n : Nat) : noBad (padZero w n) = true := by
  show (List.replicate _ '0' ++ natDigits n).all _ = true
  rw [List.all_append]
  refine Bool.and_eq_true _ _ |>.mpr ⟨?_, ?_⟩
  · rw [List.all_eq_true]
    intro c hc
    rw [List.eq_of_mem_replicate hc]
    decide
  · refine natDigitsGo_all _ ?_ (n + 1) n [] rfl
    intro d hd
    interval_cases d <;> decide

/-- Month names contain no cleanup-sensitive characters. -/
theorem noBad_monthName (m : Nat) : noBad (monthName m) = true := by
  match m with
  | 0 => decide
  | 1 => decide
  | 2 => decide
  | 3 => decide
  | 4 => decide
  | 5 => decide
  | 6 => decide
  | 7 => decide
  | 8 => decide
  | 9 => decide
  | 10 => decide
  | 11 => decide
  | 12 => decide
  | n + 13 => exact (by decide : noBad "" = true)

/-- Cleanliness distributes over string concatenation. -/
theorem noBad_append (a b : String) : noBad (a ++ b) = (noBad a && noBad b) := by
  unfold noBad
  rw [String.data_append, List.all_append]

/-- The long-format heading date contains no cleanup-sensitive
characters. -/
theorem noBad_strftimeLong (d : PyDateTime) : noBad (strftimeLong d) = true := by
  unfold strftimeLong
  rcases hc : civilFromDays d.day with ⟨y, m, dd⟩
  simp only [hc, noBad_append, Bool.and_eq_true]
  refine ⟨⟨⟨⟨noBad_monthName m, by decide⟩, noBad_padZero 2 dd⟩, by decide⟩, noBad_padZero 4 y.toNat⟩

/-- Single-star removal is exactly the filter that drops stars. -/
theorem replaceStar_eq_filter : ∀ l : List Char, replaceStar l = l.filter fun c => c ≠ '*' := by
  intro l
  induction l with
  | nil => rfl
  | cons c t ih =>
    by_cases hc : c = '*' <;> simp [replaceStar, List.filter_cons, hc, ih]

/-- Double-star removal deletes only stars: filtering stars afterwards
gives the same result as filtering the original. -/
theorem filter_replaceStarStar (l : List Char) :
    (replaceStarStar l).filter (fun c => c ≠ '*') = l.filter fun c => c ≠ '*' := by
  suffices h : ∀ n (l : List Char), l.length ≤ n →
      (replaceStarStar l).filter (fun c => c ≠ '*') = l.filter (fun c => c ≠ '*') from
    h l.length l le_rfl
  intro n
  induction n with
  | zero =>
    intro l hl
    have : l = [] := List.eq_nil_of_length_eq_zero (Nat.le_zero.mp hl)
    subst this
    rfl
  | succ n ih =>
    intro l hl
    rcases l with _ | ⟨c, _ | ⟨c2, rest⟩⟩
    · rfl
    · rfl
    · simp only [replaceStarStar]
      by_cases h : c = '*' ∧ c2 = '*'
      · rw [if_pos h]
        rw [ih rest (by simp at hl; omega)]
        obtain ⟨h1, h2⟩ := h
        subst h1; subst h2
        simp [List.filter_cons]
      · rw [if_neg h]
        simp only [List.filter_cons]
        rw [show (replaceStarStar (c2 :: rest)).filter (fun c => c ≠ '*') =
            (c2 :: rest).filter (fun c => c ≠ '*') from
          ih _ (by simp only [List.length_cons] at hl ⊢; omega)]
        simp [List.filter_cons]

/-- The text cleanup of an item, at character level: stars are filtered
out, then links are collapsed. -/
theorem cleanItem_data (s : String) :
    (cleanItem s).data = collapseLinks ((s.data).filter fun c => c ≠ '*') := by
  show collapseLinks (replaceStar (replaceStarStar s.data)) = _
  rw [replaceStar_eq_filter, filter_replaceStarStar]

/-- Link collapsing is the identity on bracket-opening-free text. -/
theorem collapseLinks_no_lbrack (l : List Char) (h : '[' ∉ l) : collapseLinks l = l := by
  suffices hs : ∀ n (l : List Char), l.length ≤ n → '[' ∉ l → collapseLinks l = l from
    hs l.length l le_rfl h
  intro n
  induction n with
  | zero =>
    intro l hl _
    have : l = [] := List.eq_nil_of_length_eq_zero (Nat.le_zero.mp hl)
    subst this
    rw [collapseLinks]
  | succ n ih =>
    intro l hl hmem
    cases l with
    | nil => rw [collapseLinks]
    | cons c cs =>
      have hc : ¬ c = '[' := fun hh => hmem (hh ▸ List.mem_cons_self c cs)
      rw [collapseLinks, if_neg hc]
      rw [ih cs (by simp at hl; omega) fun hh => hmem (List.mem_cons_of_mem _ hh)]

/-- `takeWhile`/`dropWhile` pass over a block of satisfying characters. -/
theorem takeWhile_append_all (p : Char → Bool) (b t : List Char)
    (hb : ∀ y ∈ b, p y = true) :
    (b ++ t).takeWhile p = b ++ t.takeWhile p ∧ (b ++ t).dropWhile p = t.dropWhile p := by
  induction b with
  | nil => simp
  | cons x xs ih =>
    have hx : p x = true := hb x (List.mem_cons_self x xs)
    obtain ⟨h1, h2⟩ := ih fun y hy => hb y (List.mem_cons_of_mem _ hy)
    simp [List.takeWhile_cons, List.dropWhile_cons, hx, h1, h2]

/-- The regex matcher succeeds on a well-formed `label](url)` remainder,
consuming exactly through the closing parenthesis. -/
theorem splitMatch_shape (b c d : List Char) (hb : b ≠ []) (hb2 : ']' ∉ b)
    (hc : c ≠ []) (hc2 : ')' ∉ c) :
    splitMatch (b ++ ']' :: '(' :: (c ++ ')' :: d)) =
      some (b, b.length + 2 + c.length + 1) ∧
    (b ++ ']' :: '(' :: (c ++ ')' :: d)).drop (b.length + 2 + c.length + 1) = d := by
  have hball : ∀ y ∈ b, (fun ch => decide (ch ≠ ']')) y = true := by
    intro y hy
    simp only [decide_eq_true_eq, ne_eq]
    exact fun hh => hb2 (hh ▸ hy)
  obtain ⟨ht1, hd1⟩ := takeWhile_append_all _ b (']' :: '(' :: (c ++ ')' :: d)) hball
  have hcall : ∀ y ∈ c, (fun ch => decide (ch ≠ ')')) y = true := by
    intro y hy
    simp only [decide_eq_true_eq, ne_eq]
    exact fun hh => hc2 (hh ▸ hy)
  obtain ⟨ht2, hd2⟩ := takeWhile_append_all _ c (')' :: d) hcall
  have e1 : List.takeWhile (fun ch => decide (ch ≠ ']')) (b ++ ']' :: '(' :: (c ++ ')' :: d)) = b := by
    rw [ht1]; simp [List.takeWhile_cons]
  have e2 : List.dropWhile (fun ch => decide (ch ≠ ']')) (b ++ ']' :: '(' :: (c ++ ')' :: d)) =
      ']' :: '(' :: (c ++ ')' :: d) := by
    rw [hd1]; simp [List.dropWhile_cons]
  have e3 : List.takeWhile (fun ch => decide (ch ≠ ')')) (c ++ ')' :: d) = c := by
    rw [ht2]; simp [List.takeWhile_cons]
  have e4 : List.dropWhile (fun ch => decide (ch ≠ ')')) (c ++ ')' :: d) = ')' :: d := by
    rw [hd2]; simp [List.dropWhile_cons]
  have hbne : ¬ (b.isEmpty = true) := by simpa [List.isEmpty_iff] using hb
  have hcne : ¬ (c.isEmpty = true) := by simpa [List.isEmpty_iff] using hc
  constructor
  · simp only [splitMatch]
    have hcf : c.isEmpty = false := by
      cases c with
      | nil => exact absurd rfl hc
      | cons x xs => rfl
    rw [e1, e2, if_neg hbne]
    conv_lhs => whnf
    rw [e3, e4, hcf]
    rfl
  · have hsplit : b ++ ']' :: '(' :: (c ++ ')' :: d) =
        (b ++ ']' :: '(' :: (c ++ [')'])) ++ d := by simp
    have hlen : (b ++ ']' :: '(' :: (c ++ [')'])).length = b.length + 2 + c.length + 1 := by
      simp [List.length_append]
      omega
    rw [hsplit, ← hlen, List.drop_left]

/-- Link collapsing removes every closing bracket from a `Linky` list. -/
theorem linky_collapse {l : List Char} (h : Linky l) : ']' ∉ collapseLinks l := by
  induction h with
  | nil => rw [collapseLinks]; exact List.not_mem_nil _
  | chr c l hc1 hc2 hl ih =>
    rw [collapseLinks, if_neg hc1]
    intro hmem
    rcases List.mem_cons.mp hmem with h | h
    · exact hc2 h.symm
    · exact ih h
  | link b c l hb hb2 hc hc2 hl ih =>
    obtain ⟨hsm, hdrop⟩ := splitMatch_shape b c l hb hb2 hc hc2
    have heq : collapseLinks ('[' :: (b ++ ']' :: '(' :: (c ++ ')' :: l))) =
        b ++ collapseLinks l := by
      rw [collapseLinks, if_pos rfl, hsm]
      dsimp only
      rw [hdrop]
    rw [heq]
    intro hmem
    rcases List.mem_append.mp hmem with h | h
    · exact hb2 h
    · exact ih h

/-- `Linky` lists compose. -/
theorem Linky.append {l1 l2 : List Char} (h1 : Linky l1) (h2 : Linky l2) :
    Linky (l1 ++ l2) := by
  induction h1 with
  | nil => simpa using h2
  | chr c l hc1 hc2 hl ih => exact Linky.chr c _ hc1 hc2 ih
  | link b c l hb hb2 hc hc2 hl ih =>
    have hres := Linky.link b c (l ++ l2) hb hb2 hc hc2 ih
    simpa [List.append_assoc] using hres

/-- Bracket-free lists are `Linky`. -/
theorem linky_of_forall {l : List Char} (h : ∀ ch ∈ l, ch ≠ '[' ∧ ch ≠ ']') : Linky l := by
  induction l with
  | nil => exact Linky.nil
  | cons c t ih =>
    exact Linky.chr c t (h c (List.mem_cons_self c t)).1 (h c (List.mem_cons_self c t)).2
      (ih fun ch hc => h ch (List.mem_cons_of_mem _ hc))

/-- Clean strings are `Linky`. -/
theorem linky_of_noBad {s : String} (h : noBad s = true) : Linky s.data := by
  apply linky_of_forall
  intro ch hch
  unfold noBad at h
  rw [List.all_eq_true] at h
  have hc := h ch hch
  simp only [badChar, Bool.not_eq_true', Bool.or_eq_false_iff, decide_eq_false_iff_not] at hc
  exact ⟨hc.1.1.1.1, hc.1.1.1.2⟩

/-- Membership facts packaged from a clean string. -/
theorem noBad_facts {s : String} (h : noBad s = true) :
    ']' ∉ s.data ∧ '[' ∉ s.data ∧ ')' ∉ s.data ∧
      s.data.filter (fun c => c ≠ '*') = s.data := by
  unfold noBad at h
  rw [List.all_eq_true] at h
  refine ⟨?_, ?_, ?_, ?_⟩
  · intro hm; have := h _ hm; simp [badChar] at this
  · intro hm; have := h _ hm; simp [badChar] at this
  · intro hm; have := h _ hm; simp [badChar] at this
  · rw [List.filter_eq_self]
    intro a ha
    have := h _ ha
    simp only [badChar, Bool.not_eq_true', Bool.or_eq_false_iff, decide_eq_false_iff_not] at this
    simpa using this.2

/-- Facts packaged from a usable label. -/
theorem goodLabel_facts {s : String} (h : goodLabel s = true) :
    s.data ≠ [] ∧ noBad s = true := by
  unfold goodLabel at h
  rw [Bool.and_eq_true] at h
  refine ⟨?_, h.2⟩
  intro hnil
  have hs : s = "" := by
    cases s with
    | mk data => rw [show data = [] from hnil]
  rw [hs] at h
  simpa using h.1

/-- Rendering a clean string value yields a clean string. -/
theorem isCleanStr_pyStr {v : JVal} (h : isCleanStr v = true) : noBad (pyStr v) = true := by
  cases v <;> simp [isCleanStr, pyStr] at h ⊢ <;> exact h

/-- Rendering a usable label value yields a usable label. -/
theorem isCleanLabel_pyStr {v : JVal} (h : isCleanLabel v = true) :
    goodLabel (pyStr v) = true := by
  cases v <;> simp [isCleanLabel, pyStr] at h ⊢ <;> exact h

/-- The facts packed inside `cleanCommit`, in terms of the rendered
fields the items interpolate. -/
theorem cleanCommit_facts {c : JVal} (h : cleanCommit c = true) :
    noBad (commitField c "message") = true ∧ goodLabel (commitField c "sha") = true ∧
      goodLabel (commitField c "link") = true := by
  unfold cleanCommit at h
  rw [Bool.and_eq_true, Bool.and_eq_true] at h
  exact ⟨isCleanStr_pyStr h.1.1, isCleanLabel_pyStr h.1.2, isCleanLabel_pyStr h.2⟩

/-- The facts packed inside `cleanEvent`. -/
theorem cleanEvent_facts {e : GitHubEvent} (h : cleanEvent e = true) :
    goodLabel e.repo = true ∧
    (∀ c ∈ infoCommits e.processed_info, cleanCommit c = true) ∧
    noBad (pyStr (JVal.dget e.processed_info "pr_number" (JVal.str ""))) = true ∧
    noBad (pyStr (JVal.dget e.processed_info "title" (JVal.str ""))) = true ∧
    noBad (pyStr (JVal.dget e.processed_info "review_state" (JVal.str ""))) = true ∧
    noBad (pyStr (JVal.dget e.processed_info "issue_number" (JVal.str ""))) = true ∧
    noBad (pyStr (JVal.dget e.processed_info "ref" (JVal.str ""))) = true ∧
    (∀ v ∈ JVal.asArr (JVal.dget e.processed_info "links" (JVal.arr [])), isCleanLabel v = true) ∧
    ((e.event_type = "PullRequestEvent" ∨ e.event_type = "PullRequestReviewEvent" ∨
        e.event_type = "IssueCommentEvent") →
      JVal.asArr (JVal.dget e.processed_info "links" (JVal.arr [])) ≠ []) := by
  unfold cleanEvent at h
  simp only [Bool.and_eq_true, List.all_eq_true, cleanJStr, infoCommits] at h
  obtain ⟨⟨⟨⟨⟨⟨⟨⟨h1, h2⟩, h3⟩, h4⟩, h5⟩, h6⟩, h7⟩, h8⟩, h9⟩ := h
  refine ⟨h1, h2, h3, h4, h5, h6, h7, h8, ?_⟩
  intro htype hnil
  rw [Bool.or_eq_true] at h9
  rcases h9 with h9 | h9
  · rw [Bool.not_eq_true'] at h9
    rw [Bool.or_eq_false_iff, Bool.or_eq_false_iff] at h9
    rcases htype with ht | ht | ht <;> simp [ht] at h9
  · rw [Bool.not_eq_true'] at h9
    rw [hnil] at h9
    simp at h9

/-- The last element (with default) of a non-empty list is a member. -/
theorem getLastD_mem {α : Type} (l : List α) (d : α) (h : l ≠ []) : l.getLastD d ∈ l := by
  induction l generalizing d with
  | nil => exact absurd rfl h
  | cons x xs ih =>
    rw [List.getLastD_cons]
    cases xs with
    | nil => exact List.mem_singleton.mpr rfl
    | cons y ys => exact List.mem_cons_of_mem x (ih x (List.cons_ne_nil y ys))

/-- A link segment assembled from a usable label and URL is `Linky`. -/
theorem linky_link_seg {b c : String} (hb : goodLabel b = true) (hc : goodLabel c = true)
    (tail : List Char) (ht : Linky tail) :
    Linky ('[' :: (b.data ++ ']' :: '(' :: (c.data ++ ')' :: tail))) := by
  obtain ⟨hb1, hb2⟩ := goodLabel_facts hb
  obtain ⟨hc1, hc2⟩ := goodLabel_facts hc
  exact Linky.link b.data c.data tail hb1 (noBad_facts hb2).1 hc1 (noBad_facts hc2).2.2.1 ht

/-- The cleanup of any item whose star-filtered characters are `Linky`
contains no closing bracket. -/
theorem cleanItem_no_rbrack {item : String}
    (h : Linky (item.data.filter fun c => c ≠ '*')) : ']' ∉ (cleanItem item).data := by
  rw [cleanItem_data]
  exact linky_collapse h

/-- A URL assembled from a clean prefix literal and a clean suffix is a
usable label. -/
theorem goodLabel_append {pre s : String} (hpre1 : pre.data ≠ []) (hpre2 : noBad pre = true)
    (hs : noBad s = true) : goodLabel (pre ++ s) = true := by
  unfold goodLabel
  rw [Bool.and_eq_true]
  constructor
  · rw [decide_eq_true_eq]
    intro heq
    have hd : (pre ++ s).data = [] := by rw [heq]
    rw [String.data_append] at hd
    exact hpre1 (List.append_eq_nil.mp hd).1
  · rw [noBad_append, hpre2, hs]; rfl

/-- Every line rendered for a clean repository bucket survives the text
cleanup without a closing bracket. -/
theorem commitRepoItems_clean (kv : String × List JVal)
    (hrepo : goodLabel kv.1 = true) (hcs : ∀ c ∈ kv.2, cleanCommit c = true) :
    ∀ item ∈ commitRepoItems kv, ']' ∉ (cleanItem item).data := by
  obtain ⟨repo, commits⟩ := kv
  simp only at hrepo hcs
  intro item hitem
  have hrepoBad := (goodLabel_facts hrepo).2
  unfold commitRepoItems at hitem
  simp only at hitem
  by_cases hlen : commits.length = 1
  · rw [if_pos hlen, List.mem_singleton] at hitem
    subst hitem
    apply cleanItem_no_rbrack
    have hcmem : commits.headD JVal.null ∈ commits := by
      cases commits with
      | nil => simp at hlen
      | cons c cs => exact List.mem_cons_self c cs
    obtain ⟨hm, hsha, hlink⟩ := cleanCommit_facts (hcs _ hcmem)
    have hdecomp : ("- Committed **" ++ commitField (commits.headD JVal.null) "message" ++
          "** to [" ++ repo ++ "](" ++ commitField (commits.headD JVal.null) "link" ++
          ")").data.filter (fun c => c ≠ '*') =
        ("- Committed ".data ++ ((commitField (commits.headD JVal.null) "message").data ++
            " to ".data)) ++
          ('[' :: (repo.data ++ ']' :: '(' ::
            ((commitField (commits.headD JVal.null) "link").data ++ ')' :: []))) := by
      simp only [String.data_append, List.filter_append]
      rw [(noBad_facts hm).2.2.2, (noBad_facts hrepoBad).2.2.2,
        (noBad_facts (goodLabel_facts hlink).2).2.2.2]
      rw [show "- Committed **".data.filter (fun c => c ≠ '*') = "- Committed ".data from by decide]
      rw [show "** to [".data.filter (fun c => c ≠ '*') = " to ".data ++ ['['] from by decide]
      rw [show "](".data.filter (fun c => c ≠ '*') = [']', '('] from by decide]
      rw [show ")".data.filter (fun c => c ≠ '*') = [')'] from by decide]
      simp [List.append_assoc]
    rw [hdecomp]
    exact Linky.append
      (Linky.append (linky_of_forall (by decide))
        (Linky.append (linky_of_noBad hm) (linky_of_forall (by decide))))
      (linky_link_seg hrepo hlink [] Linky.nil)
  · rw [if_neg hlen] at hitem
    rcases List.mem_cons.mp hitem with hhead | htail
    · subst hhead
      apply cleanItem_no_rbrack
      have hurl : goodLabel ("https://github.com/" ++ repo) = true :=
        goodLabel_append (by decide) (by decide) hrepoBad
      have hdecomp : ("- Made **" ++ natStr commits.length ++ " commits** to [" ++ repo ++
            "](https://github.com/" ++ repo ++ ")").data.filter (fun c => c ≠ '*') =
          ("- Made ".data ++ ((natStr commits.length).data ++ " commits to ".data)) ++
            ('[' :: (repo.data ++ ']' :: '(' ::
              (("https://github.com/" ++ repo).data ++ ')' :: []))) := by
        simp only [String.data_append, List.filter_append]
        rw [(noBad_facts (noBad_natStr commits.length)).2.2.2, (noBad_facts hrepoBad).2.2.2]
        rw [show "- Made **".data.filter (fun c => c ≠ '*') = "- Made ".data from by decide]
        rw [show " commits** to [".data.filter (fun c => c ≠ '*') =
          " commits to ".data ++ ['['] from by decide]
        rw [show "](https://github.com/".data.filter (fun c => c ≠ '*') =
          [']', '('] ++ "https://github.com/".data from by decide]
        rw [show ")".data.filter (fun c => c ≠ '*') = [')'] from by decide]
        simp [List.append_assoc]
      rw [hdecomp]
      exact Linky.append
        (Linky.append (linky_of_forall (by decide))
          (Linky.append (linky_of_noBad (noBad_natStr commits.length))
            (linky_of_forall (by decide))))
        (linky_link_seg hrepo hurl [] Linky.nil)
    · rcases List.mem_append.mp htail with hsub | hmore
      · obtain ⟨commit, hcmem0, hitem2⟩ := List.mem_map.mp hsub
        have hcmem : commit ∈ commits := List.mem_of_mem_take hcmem0
        subst hitem2
        apply cleanItem_no_rbrack
        obtain ⟨hm, hsha, hlink⟩ := cleanCommit_facts (hcs _ hcmem)
        have hdecomp : ("  - " ++ commitField commit "message" ++ " ([" ++
              commitField commit "sha" ++ "](" ++ commitField commit "link" ++
              "))").data.filter (fun c => c ≠ '*') =
            ("  - ".data ++ ((commitField commit "message").data ++ " (".data)) ++
              ('[' :: ((commitField commit "sha").data ++ ']' :: '(' ::
                ((commitField commit "link").data ++ ')' :: [')']))) := by
          simp only [String.data_append, List.filter_append]
          rw [(noBad_facts hm).2.2.2, (noBad_facts (goodLabel_facts hsha).2).2.2.2,
            (noBad_facts (goodLabel_facts hlink).2).2.2.2]
          rw [show "  - ".data.filter (fun c => c ≠ '*') = "  - ".data from by decide]
          rw [show " ([".data.filter (fun c => c ≠ '*') = " (".data ++ ['['] from by decide]
          rw [show "](".data.filter (fun c => c ≠ '*') = [']', '('] from by decide]
          rw [show "))".data.filter (fun c => c ≠ '*') = [')', ')'] from by decide]
          simp [List.append_assoc]
        rw [hdecomp]
        exact Linky.append
          (Linky.append (linky_of_forall (by decide))
            (Linky.append (linky_of_noBad hm) (linky_of_forall (by decide))))
          (linky_link_seg hsha hlink [')'] (linky_of_forall (by decide)))
      · have hitem3 : item = "  - *(and " ++ natStr (commits.length - 3) ++ " more)*" := by
          rcases (by split at hmore <;> simp_all :
            item = "  - *(and " ++ natStr (commits.length - 3) ++ " more)*") with h
          exact h
        subst hitem3
        apply cleanItem_no_rbrack
        have hdecomp : ("  - *(and " ++ natStr (commits.length - 3) ++
              " more)*").data.filter (fun c => c ≠ '*') =
            "  - (and ".data ++ ((natStr (commits.length - 3)).data ++ " more)".data) := by
          simp only [String.data_append, List.filter_append]
          rw [(noBad_facts (noBad_natStr (commits.length - 3))).2.2.2]
          rw [show "  - *(and ".data.filter (fun c => c ≠ '*') = "  - (and ".data from by decide]
          rw [show " more)*".data.filter (fun c => c ≠ '*') = " more)".data from by decide]
          simp [List.append_assoc]
        rw [hdecomp]
        exact Linky.append (linky_of_forall (by decide))
          (Linky.append (linky_of_noBad (noBad_natStr (commits.length - 3)))
            (linky_of_forall (by decide)))

/-- Every line rendered for a clean pull-request event survives the text
cleanup without a closing bracket. -/
theorem prItem_clean (e : GitHubEvent) (hclean : cleanEvent e = true)
    (htype : e.event_type = "PullRequestEvent") :
    ∀ item ∈ prItem e, ']' ∉ (cleanItem item).data := by
  intro item hitem
  obtain ⟨hrepo, hcs, hnum, htitle, hstate, hissue, href, hlinks, hlinkne⟩ :=
    cleanEvent_facts hclean
  have hne := hlinkne (Or.inl htype)
  simp only [prItem] at hitem
  obtain ⟨l0, ls, hlseq⟩ : ∃ l0 ls,
      JVal.asArr (JVal.dget e.processed_info "links" (JVal.arr [])) = l0 :: ls := by
    cases hx : JVal.asArr (JVal.dget e.processed_info "links" (JVal.arr [])) with
    | nil => exact absurd hx hne
    | cons a b => exact ⟨a, b, rfl⟩
  rw [hlseq] at hitem
  simp only [List.head?] at hitem
  have hl0 : goodLabel (pyStr l0) = true :=
    isCleanLabel_pyStr (hlinks l0 (hlseq ▸ List.mem_cons_self l0 ls))
  have hb : goodLabel ("PR #" ++ pyStr (JVal.dget e.processed_info "pr_number" (JVal.str ""))) =
      true := goodLabel_append (by decide) (by decide) hnum
  by_cases h1 : jvalEqStr (JVal.dget e.processed_info "action" (JVal.str "")) "opened" = true
  · rw [if_pos h1, List.mem_singleton] at hitem
    subst hitem
    apply cleanItem_no_rbrack
    have hdecomp : ("- Opened **[PR #" ++
          pyStr (JVal.dget e.processed_info "pr_number" (JVal.str "")) ++ "](" ++ pyStr l0 ++
          ")**: " ++ pyStr (JVal.dget e.processed_info "title" (JVal.str ""))).data.filter
          (fun c => c ≠ '*') =
        "- Opened ".data ++
          ('[' :: (("PR #" ++ pyStr (JVal.dget e.processed_info "pr_number" (JVal.str ""))).data ++
            ']' :: '(' :: ((pyStr l0).data ++ ')' ::
              (": ".data ++ (pyStr (JVal.dget e.processed_info "title" (JVal.str ""))).data)))) := by
      simp only [String.data_append, List.filter_append]
      rw [(noBad_facts hnum).2.2.2, (noBad_facts (goodLabel_facts hl0).2).2.2.2,
        (noBad_facts htitle).2.2.2]
      rw [show "- Opened **[PR #".data.filter (fun c => c ≠ '*') =
        "- Opened ".data ++ '[' :: "PR #".data from by decide]
      rw [show "](".data.filter (fun c => c ≠ '*') = [']', '('] from by decide]
      rw [show ")**: ".data.filter (fun c => c ≠ '*') = ')' :: ": ".data from by decide]
      simp [List.append_assoc]
    rw [hdecomp]
    exact Linky.append (linky_of_forall (by decide))
      (linky_link_seg hb hl0 _
        (Linky.append (linky_of_forall (by decide)) (linky_of_noBad htitle)))
  · rw [if_neg h1] at hitem
    by_cases h2 : jvalEqStr (JVal.dget e.processed_info "action" (JVal.str "")) "closed" = true ∨
        jvalEqStr (JVal.dget e.processed_info "action" (JVal.str "")) "merged" = true
    · rw [if_pos h2, List.mem_singleton] at hitem
      subst hitem
      apply cleanItem_no_rbrack
      rcases h2 with h2 | h2
      · rw [jvalEqStr_eq] at h2
        rw [h2]
        have hdecomp : ("- " ++ pyTitle (JVal.asStr (JVal.str "closed")) ++ " **[PR #" ++
              pyStr (JVal.dget e.processed_info "pr_number" (JVal.str "")) ++ "](" ++
              pyStr l0 ++ ")**: " ++
              pyStr (JVal.dget e.processed_info "title" (JVal.str ""))).data.filter
              (fun c => c ≠ '*') =
            ("- ".data ++ "Closed ".data) ++
              ('[' :: (("PR #" ++
                pyStr (JVal.dget e.processed_info "pr_number" (JVal.str ""))).data ++
                ']' :: '(' :: ((pyStr l0).data ++ ')' ::
                  (": ".data ++
                    (pyStr (JVal.dget e.processed_info "title" (JVal.str ""))).data)))) := by
          simp only [String.data_append, List.filter_append]
          rw [(noBad_facts hnum).2.2.2, (noBad_facts (goodLabel_facts hl0).2).2.2.2,
            (noBad_facts htitle).2.2.2]
          rw [show (pyTitle (JVal.asStr (JVal.str "closed"))).data.filter (fun c => c ≠ '*') =
            "Closed".data from by decide]
          rw [show "- ".data.filter (fun c => c ≠ '*') = "- ".data from by decide]
          rw [show " **[PR #".data.filter (fun c => c ≠ '*') =
            " ".data ++ '[' :: "PR #".data from by decide]
          rw [show "](".data.filter (fun c => c ≠ '*') = [']', '('] from by decide]
          rw [show ")**: ".data.filter (fun c => c ≠ '*') = ')' :: ": ".data from by decide]
          simp [List.append_assoc]
        rw [hdecomp]
        exact Linky.append
          (Linky.append (linky_of_forall (by decide)) (linky_of_forall (by decide)))
          (linky_link_seg hb hl0 _
            (Linky.append (linky_of_forall (by decide)) (linky_of_noBad htitle)))
      · rw [jvalEqStr_eq] at h2
        rw [h2]
        have hdecomp : ("- " ++ pyTitle (JVal.asStr (JVal.str "merged")) ++ " **[PR #" ++
              pyStr (JVal.dget e.processed_info "pr_number" (JVal.str "")) ++ "](" ++
              pyStr l0 ++ ")**: " ++
              pyStr (JVal.dget e.processed_info "title" (JVal.str ""))).data.filter
              (fun c => c ≠ '*') =
            ("- ".data ++ "Merged ".data) ++
              ('[' :: (("PR #" ++
                pyStr (JVal.dget e.processed_info "pr_number" (JVal.str ""))).data ++
                ']' :: '(' :: ((pyStr l0).data ++ ')' ::
                  (": ".data ++
                    (pyStr (JVal.dget e.processed_info "title" (JVal.str ""))).data)))) := by
          simp only [String.data_append, List.filter_append]
          rw [(noBad_facts hnum).2.2.2, (noBad_facts (goodLabel_facts hl0).2).2.2.2,
            (noBad_facts htitle).2.2.2]
          rw [show (pyTitle (JVal.asStr (JVal.str "merged"))).data.filter (fun c => c ≠ '*') =
            "Merged".data from by decide]
          rw [show "- ".data.filter (fun c => c ≠ '*') = "- ".data from by decide]
          rw [show " **[PR #".data.filter (fun c => c ≠ '*') =
            " ".data ++ '[' :: "PR #".data from by decide]
          rw [show "](".data.filter (fun c => c ≠ '*') = [']', '('] from by decide]
          rw [show ")**: ".data.filter (fun c => c ≠ '*') = ')' :: ": ".data from by decide]
          simp [List.append_assoc]
        rw [hdecomp]
        exact Linky.append
          (Linky.append (linky_of_forall (by decide)) (linky_of_forall (by decide)))
          (linky_link_seg hb hl0 _
            (Linky.append (linky_of_forall (by decide)) (linky_of_noBad htitle)))
    · rw [if_neg h2] at hitem
      exact absurd hitem (List.not_mem_nil item)

/-- The line rendered for a clean review bucket survives the text
cleanup without a closing bracket. -/
theorem reviewPrItem_clean (kv : String × List GitHubEvent) (hne : kv.2 ≠ [])
    (h : ∀ x ∈ kv.2, cleanEvent x = true ∧ x.event_type = "PullRequestReviewEvent") :
    ']' ∉ (cleanItem (reviewPrItem kv)).data := by
  have hmem := getLastD_mem kv.2 ⟨"", "", "", "", [], []⟩ hne
  obtain ⟨hclean, htype⟩ := h _ hmem
  obtain ⟨hrepo, hcs, hnum, htitle, hstate, hissue, href, hlinks, hlinkne⟩ :=
    cleanEvent_facts hclean
  have hlinksne := hlinkne (Or.inr (Or.inl htype))
  obtain ⟨l0, ls, hlseq⟩ : ∃ l0 ls,
      JVal.asArr (JVal.dget (kv.2.getLastD ⟨"", "", "", "", [], []⟩).processed_info
        "links" (JVal.arr [])) = l0 :: ls := by
    cases hx : JVal.asArr (JVal.dget (kv.2.getLastD ⟨"", "", "", "", [], []⟩).processed_info
        "links" (JVal.arr [])) with
    | nil => exact absurd hx hlinksne
    | cons a b => exact ⟨a, b, rfl⟩
  have hl0 : goodLabel (pyStr l0) = true :=
    isCleanLabel_pyStr (hlinks l0 (hlseq ▸ List.mem_cons_self l0 ls))
  have hb : goodLabel ("PR #" ++
      pyStr (JVal.dget (kv.2.getLastD ⟨"", "", "", "", [], []⟩).processed_info
        "pr_number" (JVal.str ""))) = true :=
    goodLabel_append (by decide) (by decide) hnum
  simp only [reviewPrItem]
  rw [hlseq]
  simp only [List.head?]
  apply cleanItem_no_rbrack
  have hdecomp : ("- Reviewed **[PR #" ++
        pyStr (JVal.dget (kv.2.getLastD ⟨"", "", "", "", [], []⟩).processed_info
          "pr_number" (JVal.str "")) ++ "](" ++ pyStr l0 ++ ")** (" ++
        pyStr (JVal.dget (kv.2.getLastD ⟨"", "", "", "", [], []⟩).processed_info
          "review_state" (JVal.str "")) ++ ")").data.filter (fun c => c ≠ '*') =
      "- Reviewed ".data ++
        ('[' :: (("PR #" ++
          pyStr (JVal.dget (kv.2.getLastD ⟨"", "", "", "", [], []⟩).processed_info
            "pr_number" (JVal.str ""))).data ++
          ']' :: '(' :: ((pyStr l0).data ++ ')' ::
            (" (".data ++
              ((pyStr (JVal.dget (kv.2.getLastD ⟨"", "", "", "", [], []⟩).processed_info
                "review_state" (JVal.str ""))).data ++ ")".data))))) := by
    simp only [String.data_append, List.filter_append]
    rw [(noBad_facts hnum).2.2.2, (noBad_facts (goodLabel_facts hl0).2).2.2.2,
      (noBad_facts hstate).2.2.2]
    rw [show "- Reviewed **[PR #".data.filter (fun c => c ≠ '*') =
      "- Reviewed ".data ++ '[' :: "PR #".data from by decide]
    rw [show "](".data.filter (fun c => c ≠ '*') = [']', '('] from by decide]
    rw [show ")** (".data.filter (fun c => c ≠ '*') = ')' :: " (".data from by decide]
    rw [show ")".data.filter (fun c => c ≠ '*') = [')'] from by decide]
    simp [List.append_assoc]
  rw [hdecomp]
  exact Linky.append (linky_of_forall (by decide))
    (linky_link_seg hb hl0 _
      (Linky.append (linky_of_forall (by decide))
        (Linky.append (linky_of_noBad hstate) (linky_of_forall (by decide)))))

/-- Every line rendered for a clean issue-comment or creation event
survives the text cleanup without a closing bracket. -/
theorem otherItem_clean (e : GitHubEvent) (hclean : cleanEvent e = true) :
    ∀ item ∈ otherItem e, ']' ∉ (cleanItem item).data := by
  intro item hitem
  obtain ⟨hrepo, hcs, hnum, htitle, hstate, hissue, href, hlinks, hlinkne⟩ :=
    cleanEvent_facts hclean
  simp only [otherItem] at hitem
  by_cases ht1 : e.event_type = "IssueCommentEvent"
  · rw [if_pos ht1] at hitem
    have hlinksne := hlinkne (Or.inr (Or.inr ht1))
    obtain ⟨l0, ls, hlseq⟩ : ∃ l0 ls,
        JVal.asArr (JVal.dget e.processed_info "links" (JVal.arr [])) = l0 :: ls := by
      cases hx : JVal.asArr (JVal.dget e.processed_info "links" (JVal.arr [])) with
      | nil => exact absurd hx hlinksne
      | cons a b => exact ⟨a, b, rfl⟩
    rw [hlseq] at hitem
    simp only [List.head?] at hitem
    have hl0 : goodLabel (pyStr l0) = true :=
      isCleanLabel_pyStr (hlinks l0 (hlseq ▸ List.mem_cons_self l0 ls))
    by_cases hpr : JVal.pyTruthy
        (JVal.dget e.processed_info "is_pull_request" (JVal.bool false)) = true
    · rw [if_pos hpr, List.mem_singleton] at hitem
      subst hitem
      apply cleanItem_no_rbrack
      have hb : goodLabel ("PR #" ++
          pyStr (JVal.dget e.processed_info "issue_number" (JVal.str ""))) = true :=
        goodLabel_append (by decide) (by decide) hissue
      have hdecomp : ("- Commented on **[" ++ "PR" ++ " #" ++
            pyStr (JVal.dget e.processed_info "issue_number" (JVal.str "")) ++ "](" ++
            pyStr l0 ++ ")**").data.filter (fun c => c ≠ '*') =
          "- Commented on ".data ++
            ('[' :: (("PR #" ++
              pyStr (JVal.dget e.processed_info "issue_number" (JVal.str ""))).data ++
              ']' :: '(' :: ((pyStr l0).data ++ ')' :: []))) := by
        simp only [String.data_append, List.filter_append]
        rw [(noBad_facts hissue).2.2.2, (noBad_facts (goodLabel_facts hl0).2).2.2.2]
        rw [show "- Commented on **[".data.filter (fun c => c ≠ '*') =
          "- Commented on ".data ++ ['['] from by decide]
        rw [show "PR".data.filter (fun c => c ≠ '*') = "PR".data from by decide]
        rw [show " #".data.filter (fun c => c ≠ '*') = " #".data from by decide]
        rw [show "](".data.filter (fun c => c ≠ '*') = [']', '('] from by decide]
        rw [show ")**".data.filter (fun c => c ≠ '*') = [')'] from by decide]
        simp [List.append_assoc]
      rw [hdecomp]
      exact Linky.append (linky_of_forall (by decide))
        (linky_link_seg hb hl0 [] Linky.nil)
    · rw [if_neg hpr, List.mem_singleton] at hitem
      subst hitem
      apply cleanItem_no_rbrack
      have hb : goodLabel ("issue #" ++
          pyStr (JVal.dget e.processed_info "issue_number" (JVal.str ""))) = true :=
        goodLabel_append (by decide) (by decide) hissue
      have hdecomp : ("- Commented on **[" ++ "issue" ++ " #" ++
            pyStr (JVal.dget e.processed_info "issue_number" (JVal.str "")) ++ "](" ++
            pyStr l0 ++ ")**").data.filter (fun c => c ≠ '*') =
          "- Commented on ".data ++
            ('[' :: (("issue #" ++
              pyStr (JVal.dget e.processed_info "issue_number" (JVal.str ""))).data ++
              ']' :: '(' :: ((pyStr l0).data ++ ')' :: []))) := by
        simp only [String.data_append, List.filter_append]
        rw [(noBad_facts hissue).2.2.2, (noBad_facts (goodLabel_facts hl0).2).2.2.2]
        rw [show "- Commented on **[".data.filter (fun c => c ≠ '*') =
          "- Commented on ".data ++ ['['] from by decide]
        rw [show "issue".data.filter (fun c => c ≠ '*') = "issue".data from by decide]
        rw [show " #".data.filter (fun c => c ≠ '*') = " #".data from by decide]
        rw [show "](".data.filter (fun c => c ≠ '*') = [']', '('] from by decide]
        rw [show ")**".data.filter (fun c => c ≠ '*') = [')'] from by decide]
        simp [List.append_assoc]
      rw [hdecomp]
      exact Linky.append (linky_of_forall (by decide))
        (linky_link_seg hb hl0 [] Linky.nil)
  · rw [if_neg ht1] at hitem
    by_cases ht2 : e.event_type = "CreateEvent"
    · rw [if_pos ht2] at hitem
      by_cases hbr : jvalEqStr (JVal.dget e.processed_info "ref_type" (JVal.str "")) "branch" =
          true
      · rw [if_pos hbr, List.mem_singleton] at hitem
        subst hitem
        apply cleanItem_no_rbrack
        have hrepoBad := (goodLabel_facts hrepo).2
        have hdecomp : ("- Created branch **" ++
              pyStr (JVal.dget e.processed_info "ref" (JVal.str "")) ++ "** in " ++
              e.repo).data.filter (fun c => c ≠ '*') =
            "- Created branch ".data ++
              ((pyStr (JVal.dget e.processed_info "ref" (JVal.str ""))).data ++
                (" in ".data ++ e.repo.data)) := by
          simp only [String.data_append, List.filter_append]
          rw [(noBad_facts href).2.2.2, (noBad_facts hrepoBad).2.2.2]
          rw [show "- Created branch **".data.filter (fun c => c ≠ '*') =
            "- Created branch ".data from by decide]
          rw [show "** in ".data.filter (fun c => c ≠ '*') = " in ".data from by decide]
          simp [List.append_assoc]
        rw [hdecomp]
        exact Linky.append (linky_of_forall (by decide))
          (Linky.append (linky_of_noBad href)
            (Linky.append (linky_of_forall (by decide)) (linky_of_noBad hrepoBad)))
      · rw [if_neg hbr] at hitem
        exact absurd hitem (List.not_mem_nil item)
    · rw [if_neg ht2] at hitem
      exact absurd hitem (List.not_mem_nil item)

/-- The `commits_by_repo` fold keeps every bucket keyed by a usable
repository label and filled with clean commit records. -/
theorem foldl_commitsByRepoStep_clean (evs : List GitHubEvent) :
    ∀ m : List (String × List JVal),
      (∀ kv ∈ m, goodLabel kv.1 = true ∧ ∀ c ∈ kv.2, cleanCommit c = true) →
      (∀ e ∈ evs, goodLabel e.repo = true ∧
        ∀ c ∈ infoCommits e.processed_info, cleanCommit c = true) →
      ∀ kv ∈ evs.foldl commitsByRepoStep m,
        goodLabel kv.1 = true ∧ ∀ c ∈ kv.2, cleanCommit c = true := by
  induction evs with
  | nil => intro m hm _ kv hkv; exact hm kv hkv
  | cons e t ih =>
    intro m hm hevs kv hkv
    rw [List.foldl_cons] at hkv
    refine ih (commitsByRepoStep m e) ?_ (fun x hx => hevs x (List.mem_cons_of_mem e hx)) kv hkv
    intro kv' hkv'
    have he := hevs e (List.mem_cons_self e t)
    simp only [commitsByRepoStep] at hkv'
    by_cases hany : (m.any fun kv => kv.1 = e.repo) = true
    · rw [if_pos hany] at hkv'
      obtain ⟨kv0, hkv0, heq⟩ := List.mem_map.mp hkv'
      have heq2 : (if kv0.1 = e.repo then
          (kv0.1, kv0.2 ++ JVal.asArr (JVal.dget e.processed_info "commits" (JVal.arr [])))
        else kv0) = kv' := heq
      by_cases hk : kv0.1 = e.repo
      · rw [if_pos hk] at heq2
        subst heq2
        refine ⟨(hm kv0 hkv0).1, ?_⟩
        intro c hc
        rcases List.mem_append.mp hc with hc | hc
        · exact (hm kv0 hkv0).2 c hc
        · exact he.2 c hc
      · rw [if_neg hk] at heq2
        subst heq2
        exact hm kv0 hkv0
    · rw [if_neg hany] at hkv'
      rcases List.mem_append.mp hkv' with hc | hc
      · exact hm kv' hc
      · rw [List.mem_singleton] at hc
        subst hc
        exact ⟨he.1, he.2⟩

/-- Cleanliness of the `commits_by_repo` buckets built from clean
events. -/
theorem commitsByRepo_clean (l : List GitHubEvent)
    (hl : ∀ e ∈ l, goodLabel e.repo = true ∧
      ∀ c ∈ infoCommits e.processed_info, cleanCommit c = true) :
    ∀ kv ∈ commitsByRepo l, goodLabel kv.1 = true ∧ ∀ c ∈ kv.2, cleanCommit c = true := by
  unfold commitsByRepo
  exact foldl_commitsByRepoStep_clean l [] (fun kv hkv => absurd hkv (List.not_mem_nil kv)) hl

/-- The `reviews_by_pr` fold keeps every bucket non-empty and filled
with clean `PullRequestReviewEvent` records. -/
theorem foldl_reviewsByPrStep_clean (evs : List GitHubEvent) :
    ∀ m : List (String × List GitHubEvent),
      (∀ kv ∈ m, kv.2 ≠ [] ∧ ∀ x ∈ kv.2, cleanEvent x = true ∧
        x.event_type = "PullRequestReviewEvent") →
      (∀ e ∈ evs, cleanEvent e = true) →
      ∀ kv ∈ evs.foldl reviewsByPrStep m,
        kv.2 ≠ [] ∧ ∀ x ∈ kv.2, cleanEvent x = true ∧
          x.event_type = "PullRequestReviewEvent" := by
  induction evs with
  | nil => intro m hm _ kv hkv; exact hm kv hkv
  | cons e t ih =>
    intro m hm hevs kv hkv
    rw [List.foldl_cons] at hkv
    refine ih (reviewsByPrStep m e) ?_ (fun x hx => hevs x (List.mem_cons_of_mem e hx)) kv hkv
    intro kv' hkv'
    have he := hevs e (List.mem_cons_self e t)
    simp only [reviewsByPrStep] at hkv'
    by_cases htype : e.event_type = "PullRequestReviewEvent"
    · rw [if_pos htype] at hkv'
      by_cases hany : (m.any fun kv =>
          kv.1 = e.repo ++ "#" ++ pyStr (JVal.dget e.processed_info "pr_number" (JVal.str ""))) =
          true
      · rw [if_pos hany] at hkv'
        obtain ⟨kv0, hkv0, heq⟩ := List.mem_map.mp hkv'
        have heq2 : (if kv0.1 =
            e.repo ++ "#" ++ pyStr (JVal.dget e.processed_info "pr_number" (JVal.str "")) then
            (kv0.1, kv0.2 ++ [e]) else kv0) = kv' := heq
        by_cases hk : kv0.1 =
            e.repo ++ "#" ++ pyStr (JVal.dget e.processed_info "pr_number" (JVal.str ""))
        · rw [if_pos hk] at heq2
          subst heq2
          refine ⟨by simp, ?_⟩
          intro x hx
          rcases List.mem_append.mp hx with hx | hx
          · exact (hm kv0 hkv0).2 x hx
          · rw [List.mem_singleton] at hx
            subst hx
            exact ⟨he, htype⟩
        · rw [if_neg hk] at heq2
          subst heq2
          exact hm kv0 hkv0
      · rw [if_neg hany] at hkv'
        rcases List.mem_append.mp hkv' with hc | hc
        · exact hm kv' hc
        · rw [List.mem_singleton] at hc
          subst hc
          refine ⟨by simp, ?_⟩
          intro x hx
          rw [List.mem_singleton] at hx
          subst hx
          exact ⟨he, htype⟩
    · rw [if_neg htype] at hkv'
      exact hm kv' hkv'

/-- Cleanliness of the `reviews_by_pr` buckets built from clean
events. -/
theorem reviewsByPr_clean (l : List GitHubEvent) (hl : ∀ e ∈ l, cleanEvent e = true) :
    ∀ kv ∈ reviewsByPr l, kv.2 ≠ [] ∧ ∀ x ∈ kv.2, cleanEvent x = true ∧
      x.event_type = "PullRequestReviewEvent" := by
  unfold reviewsByPr
  exact foldl_reviewsByPrStep_clean l [] (fun kv hkv => absurd hkv (List.not_mem_nil kv)) hl

/-- Every standup item generated from clean events survives the text
cleanup without a closing bracket. -/
theorem generate_standup_items_clean (a : GitHubActivity)
    (h : ∀ e ∈ a.events, cleanEvent e = true) :
    ∀ item ∈ generate_standup_items a, ']' ∉ (cleanItem item).data := by
  intro item hitem
  simp only [generate_standup_items, group_significant_events] at hitem
  rw [foldl_groupStep] at hitem
  simp only [List.nil_append] at hitem
  rcases List.mem_append.mp hitem with habc | hd
  · rcases List.mem_append.mp habc with hab | hc
    · rcases List.mem_append.mp hab with ha | hb
      · simp only [format_commit_items] at ha
        obtain ⟨kv, hkv, hitem2⟩ := List.mem_flatMap.mp ha
        have hkv2 := commitsByRepo_clean (a.events.filter inCommitsGroup)
          (fun e he => ⟨(cleanEvent_facts (h e (List.mem_of_mem_filter he))).1,
            (cleanEvent_facts (h e (List.mem_of_mem_filter he))).2.1⟩) kv hkv
        exact commitRepoItems_clean kv hkv2.1 hkv2.2 item hitem2
      · simp only [format_pr_items] at hb
        obtain ⟨e, he, hitem2⟩ := List.mem_flatMap.mp hb
        have hef := List.mem_filter.mp he
        have htype : e.event_type = "PullRequestEvent" := by
          simpa [inPRGroup] using hef.2
        exact prItem_clean e (h e hef.1) htype item hitem2
    · simp only [format_review_items] at hc
      obtain ⟨kv, hkv, heq⟩ := List.mem_map.mp hc
      have hkv2 := reviewsByPr_clean (a.events.filter inReviewsGroup)
        (fun e he => h e (List.mem_of_mem_filter he)) kv hkv
      subst heq
      exact reviewPrItem_clean kv hkv2.1 hkv2.2
  · simp only [format_other_items] at hd
    obtain ⟨e, he, hitem2⟩ := List.mem_flatMap.mp hd
    exact otherItem_clean e (h e (List.mem_of_mem_filter he)) item hitem2

/-- Joining lines never introduces a character other than the newline
separator. -/
theorem joinNL_not_mem (c : Char) (hc : c ≠ '\n') :
    ∀ lines : List String, (∀ l ∈ lines, c ∉ l.data) → c ∉ (joinNL lines).data := by
  intro lines
  induction lines with
  | nil => intro _ hmem; simp [joinNL] at hmem
  | cons x xs ih =>
    cases xs with
    | nil =>
      intro h hmem
      exact h x (List.mem_cons_self x []) (by simpa [joinNL] using hmem)
    | cons y ys =>
      intro h hmem
      simp only [joinNL, String.data_append] at hmem
      rcases List.mem_append.mp hmem with hm | hm
      · rcases List.mem_append.mp hm with hm2 | hm2
        · exact h x (List.mem_cons_self x (y :: ys)) hm2
        · rw [List.mem_singleton] at hm2
          exact hc hm2
      · exact ih (fun l hl => h l (List.mem_cons_of_mem x hl)) hm

/-- Each line's characters form an infix of the joined report. -/
theorem joinNL_line_within (lines : List String) :
    ∀ l ∈ lines, l.data <:+: (joinNL lines).data := by
  induction lines with
  | nil => intro l hl; exact absurd hl (List.not_mem_nil l)
  | cons x xs ih =>
    intro l hl
    cases xs with
    | nil =>
      rw [List.mem_singleton] at hl
      subst hl
      simp only [joinNL]
      exact List.infix_refl _
    | cons y ys =>
      simp only [joinNL, String.data_append]
      rcases List.mem_cons.mp hl with heq | hl2
      · subst heq
        exact ⟨[], ("\n" : String).data ++ (joinNL (y :: ys)).data, by
          simp [List.append_assoc]⟩
      · obtain ⟨s, t, hst⟩ := ih l hl2
        exact ⟨(x.data ++ ("\n" : String).data) ++ s, t, by
          rw [← hst]; simp [List.append_assoc]⟩

/-- The plain-text render of a collection of clean events contains no
closing bracket at all: the markdown stripping removes every one the
items introduced. -/
theorem format_text_report_no_rbrack (a : GitHubActivity)
    (h : ∀ e ∈ a.events, cleanEvent e = true) :
    ']' ∉ (format_text_report a).data := by
  simp only [format_text_report]
  refine joinNL_not_mem ']' (by decide) _ ?_
  intro l hl
  rcases List.mem_append.mp hl with hl | hl
  · simp only [List.mem_cons, List.not_mem_nil, or_false] at hl
    rcases hl with rfl | rfl | rfl
    · intro hmem
      rw [String.data_append] at hmem
      rcases List.mem_append.mp hmem with hm | hm
      · exact absurd hm (by decide)
      · exact (noBad_facts (noBad_strftimeLong a.target_date)).1 hm
    · intro hmem
      exact absurd (List.eq_of_mem_replicate hmem) (by decide)
    · exact by decide
  · by_cases hempty : (generate_standup_items a).isEmpty = true
    · rw [if_pos hempty, List.mem_singleton] at hl
      subst hl
      exact by decide
    · rw [if_neg hempty] at hl
      obtain ⟨item, hitem, heq⟩ := List.mem_map.mp hl
      subst heq
      exact generate_standup_items_clean a h item hitem

/-- Adding to the repository set never empties it. -/
theorem setAdd_ne_nil (s : List String) (x : String) : setAdd s x ≠ [] := by
  unfold setAdd
  by_cases h : x ∈ s
  · rw [if_pos h]
    exact List.ne_nil_of_mem h
  · rw [if_neg h]
    simp

/-- The summary fold never empties the repository set. -/
theorem foldl_summaryStep_repositories (evs : List GitHubEvent) :
    ∀ acc : List (String × JVal) × List String × Int × Int,
      acc.2.1 ≠ [] → (evs.foldl summaryStep acc).2.1 ≠ [] := by
  induction evs with
  | nil => intro acc h; exact h
  | cons e t ih =>
    intro acc h
    rw [List.foldl_cons]
    exact ih (summaryStep acc e) (setAdd_ne_nil acc.2.1 e.repo)

/-- The repository list stored under `summary["repositories"]` is the
set the summary fold accumulates. -/
theorem generate_summary_repositories (evs : List GitHubEvent) :
    summaryRepositories (generate_summary evs) =
      ((evs.foldl summaryStep ([], [], 0, 0)).2.1.map JVal.str).map pyStr := by
  simp [summaryRepositories, generate_summary, JVal.dget, JVal.asArr]

/-- A collection with at least one event lists at least one repository
in its summary. -/
theorem generate_summary_repositories_ne_nil (evs : List GitHubEvent) (h : evs ≠ []) :
    summaryRepositories (generate_summary evs) ≠ [] := by
  rw [generate_summary_repositories]
  simp only [ne_eq, List.map_eq_nil_iff]
  cases evs with
  | nil => exact absurd rfl h
  | cons e t =>
    rw [List.foldl_cons]
    exact foldl_summaryStep_repositories t (summaryStep ([], [], 0, 0) e)
      (setAdd_ne_nil [] e.repo)

/-- Sorting preserves non-emptiness. -/
theorem sortStrings_ne_nil (l : List String) (h : l ≠ []) : sortStrings l ≠ [] := by
  unfold sortStrings
  intro hnil
  have hlen := congrArg List.length hnil
  rw [List.length_mergeSort] at hlen
  exact h (List.length_eq_zero.mp hlen)

/-- The markdown render of a collection with at least one event and at
least one summary repository contains a literal markdown link to
GitHub. -/
theorem markdown_has_link (a : GitHubActivity) (hne : a.events ≠ [])
    (hrep : summaryRepositories a.summary ≠ []) :
    containsSub (format_markdown_report a) "](http" = true := by
  rw [containsSub_iff]
  have hsne := sortStrings_ne_nil _ hrep
  obtain ⟨r0, rs, hsort⟩ : ∃ r0 rs,
      sortStrings (summaryRepositories a.summary) = r0 :: rs := by
    cases hx : sortStrings (summaryRepositories a.summary) with
    | nil => exact absurd hx hsne
    | cons p q => exact ⟨p, q, rfl⟩
  have hev : ¬a.events.isEmpty = true := by
    cases hx : a.events with
    | nil => exact absurd hx hne
    | cons p q => simp
  have hinfix : ("](http" : String).data <:+:
      ("- [" ++ r0 ++ "](https://github.com/" ++ r0 ++ ")").data :=
    ⟨("- [" : String).data ++ r0.data,
      ("s://github.com/" : String).data ++ (r0.data ++ (")" : String).data), by
        simp [List.append_assoc]⟩
  simp only [format_markdown_report]
  rw [if_neg hev, hsort]
  simp only [List.map_cons]
  refine List.IsInfix.trans hinfix (joinNL_line_within _ _ ?_)
  refine List.mem_append.mpr (Or.inr ?_)
  refine List.mem_append.mpr (Or.inl ?_)
  refine List.mem_append.mpr (Or.inr ?_)
  exact List.mem_cons_self _ _

/-- C5: refuted as stated. The claim asserts every collection's
markdown render contains at least one `](http`; a collection with no
events renders a markdown report with no repository links and hence no
such substring. -/
theorem C5_counterexample :
    c5CexActivity.events = [] ∧
      containsSub (format_markdown_report c5CexActivity) "](http" = false :=
  ⟨rfl, by decide⟩

/-- C5 (amended): for a collection with at least one event, whose
events are clean (labels and interpolated fields free of
markdown-sensitive characters, link-bearing event types carrying at
least one link) and whose summary is the one the pipeline computes, the
markdown render contains at least one `](http` while the plain-text
render — the same structure with emphasis markers stripped and
`[label](url)` links collapsed to their label — contains none. -/
theorem C5_amended_text_strips_links (a : GitHubActivity)
    (hne : a.events ≠ []) (hclean : a.events.all cleanEvent = true)
    (hsum : a.summary = generate_summary a.events) :
    containsSub (format_markdown_report a) "](http" = true ∧
      containsSub (format_text_report a) "](http" = false := by
  constructor
  · apply markdown_has_link a hne
    rw [hsum]
    exact generate_summary_repositories_ne_nil a.events hne
  · by_contra hcon
    rw [Bool.not_eq_false, containsSub_iff] at hcon
    exact format_text_report_no_rbrack a
      (fun e he => List.all_eq_true.mp hclean e he)
      (hcon.subset (by decide))

/-- Witness for the amended C5 at a concrete one-event collection. -/
theorem C5_amended_text_strips_links_witness :
    c5WitnessActivity.events ≠ [] ∧ c5WitnessActivity.events.all cleanEvent = true ∧
      c5WitnessActivity.summary = generate_summary c5WitnessActivity.events ∧
      (containsSub (format_markdown_report c5WitnessActivity) "](http" = true ∧
        containsSub (format_text_report c5WitnessActivity) "](http" = false) :=
  ⟨List.cons_ne_nil _ _, by decide, rfl,
    C5_amended_text_strips_links c5WitnessActivity (List.cons_ne_nil _ _) (by decide) rfl⟩
